import Mathlib

/-!
Verification of the path-model estimation engine of
`masem-path-model-builder` against its specification.

The engine lives in `src/PathModelBuilder2.tsx` (the authoritative variant)
with a near-duplicate `src/PathModelBuilder - Copy.tsx` (whose
`parseMatrixText` contains a symmetry-reconciliation pass).

Modelling conventions, used consistently below:

* A JavaScript `number` that the code only ever uses as finite-or-NaN is
  modelled as `Fl := Option ℚ`, with `none` standing for a non-finite value
  (NaN, or the result of an operation on one).  `Number.isFinite x`
  becomes `x.isSome`; arithmetic propagates `none`; comparisons involving
  NaN are `false`, as in JS.  Non-finite infinities are conflated with NaN;
  the engine never distinguishes them (`Number.isFinite` rejects both).
* Decimal literals of the source (1e-6, 1e-8, 1e-12, 0.999999, 0.999,
  correlation presets) are modelled as the exact rationals they denote.
* `Math.sqrt` and `Math.log` are transcendental; every definition that
  needs them takes explicit function parameters `sqrtf logf : ℚ → ℚ`.
  All claims under verification are independent of their values.
* A `Record<VarName, Record<VarName, Cell>>` is a two-level partial map
  `CellMatrix := VarName → Option (VarName → Option Cell)`, so that a
  missing row (`!M[r]`) and a missing cell (`!M[r][c]`) are distinguished,
  as `validateCellMatrix` requires.
* JS objects used as string-keyed accumulators (`r2`, `resid`) are
  modelled as association lists where the *last* binding wins, matching
  repeated property assignment.
* Code that throws `Error` is modelled in `Except String`; an uncaught
  `TypeError` from accessing a property of `undefined` (which
  `validateCellMatrix` can hit at `M[a][b].r` when a cell is absent while
  all rows exist) is modelled by returning `none` from an `Option`.
  The few places that read `M[r][c].r` under a guard that already
  guarantees the cell exists (`buildRMatrix`, `estimatePathsFromCorrelation`)
  are modelled with the total accessor `getCellR`, which yields NaN for an
  absent cell; all theorems below only exercise it on present cells.
* The human-readable finding strings pushed by the validator are modelled
  by the inductive type `Finding`, one constructor per distinct message
  template (the interpolated coordinates become constructor arguments).
-/

set_option linter.unreachableTactic false
set_option linter.unusedTactic false
set_option linter.unnecessarySeqFocus false

namespace PathModel

abbrev VarName := String

/-- A finite-or-NaN JavaScript number: `none` is NaN / non-finite. -/
abbrev Fl := Option ℚ

/-- `Math.abs` on rationals, written to reduce in the kernel. -/
def qabs (q : ℚ) : ℚ := if q < 0 then -q else q

/-- `Math.max` on rationals, written to reduce in the kernel. -/
def qmax (a b : ℚ) : ℚ := if a < b then b else a

/-- `Math.min` on rationals, written to reduce in the kernel. -/
def qmin (a b : ℚ) : ℚ := if a < b then a else b

/-- NaN-propagating addition. -/
def flAdd : Fl → Fl → Fl
  | some a, some b => some (a + b)
  | _, _ => none

/-- NaN-propagating subtraction. -/
def flSub : Fl → Fl → Fl
  | some a, some b => some (a - b)
  | _, _ => none

/-- NaN-propagating multiplication. -/
def flMul : Fl → Fl → Fl
  | some a, some b => some (a * b)
  | _, _ => none

/-- NaN-propagating division; division by zero yields a non-finite value. -/
def flDiv : Fl → Fl → Fl
  | some a, some b => if b = 0 then none else some (a / b)
  | _, _ => none

/-- `Math.max`, which returns NaN if either argument is NaN. -/
def flMax : Fl → Fl → Fl
  | some a, some b => some (qmax a b)
  | _, _ => none

/-- `Math.abs x > Math.abs y` — `false` whenever NaN is involved. -/
def flAbsGt (x y : Fl) : Bool :=
  match x, y with
  | some a, some b => decide (qabs b < qabs a)
  | _, _ => false

/-- `Math.abs x < c` for a literal `c` — `false` when `x` is NaN. -/
def flAbsLt (x : Fl) (c : ℚ) : Bool :=
  match x with
  | some a => decide (qabs a < c)
  | none => false

/-- `x <= 0` — `false` when `x` is NaN. -/
def flLe0 (x : Fl) : Bool :=
  match x with
  | some a => decide (a ≤ 0)
  | none => false

/-- Tolerance `1e-6` of the source. -/
def eps6 : ℚ := 1 / 1000000

/-- Residual-variance floor `1e-8` of the source. -/
def eps8 : ℚ := 1 / 100000000

/-- Pivot threshold `1e-12` of the source. -/
def eps12 : ℚ := 1 / 1000000000000

/-- Near-unity warning threshold `0.999999` of the source. -/
def nearOne : ℚ := 999999 / 1000000

/-- `type Cell = { r: number; n: number }` with NaN-able entries. -/
structure Cell where
  r : Fl
  n : Fl
deriving DecidableEq, Repr

/-- One row of a `CellMatrix` record. -/
abbrev Row := VarName → Option Cell

/-- `type CellMatrix = Record<VarName, Record<VarName, Cell>>`. -/
abbrev CellMatrix := VarName → Option Row

/-- `M[r]?.[c]` — the cell, if both row and cell exist. -/
def cellAt (M : CellMatrix) (r c : VarName) : Option Cell :=
  (M r).bind fun row => row c

/-- The assignment `M[r][c] = cell` (creating row `r` if absent). -/
def updCell (M : CellMatrix) (r c : VarName) (cell : Cell) : CellMatrix :=
  fun r' =>
    if r' = r then
      some (fun c' => if c' = c then some cell else ((M r).getD (fun _ => none)) c')
    else M r'

/-- `M[r][c].r`, total: NaN when the cell is absent (see header comment). -/
def getCellR (M : CellMatrix) (r c : VarName) : Fl :=
  (cellAt M r c).bind Cell.r

/-- `M[r]?.[c]?.n`. -/
def getCellN (M : CellMatrix) (r c : VarName) : Fl :=
  (cellAt M r c).bind Cell.n

/-- The forced diagonal cell `{ r: 1, n: NaN }`. -/
def diagCell : Cell := ⟨some 1, none⟩

/-- The index pairs `(i, j)` with `i < j < n`, in the order of the nested
`for (i…) for (j = i+1…)` loops of the source. -/
def indexPairs (n : Nat) : List (Nat × Nat) :=
  (List.range n).flatMap fun i => ((List.range n).drop (i + 1)).map fun j => (i, j)

/-- The unordered pairs of elements of a list, first components first. -/
def unordPairs : List VarName → List (VarName × VarName)
  | [] => []
  | x :: xs => (xs.map fun y => (x, y)) ++ unordPairs xs

/-- One finding per distinct message template of the source (validator
messages, symmetry warnings of the two variants, and the extra messages of
`runEstimationAndStore`); interpolated coordinates become arguments. -/
inductive Finding where
  | missingRow (v : VarName)
  | missingCell (r c : VarName)
  | invalidR (r c : VarName)
  | outOfBounds (r c : VarName)
  | badDiag (r c : VarName)
  | missingN (r c : VarName)
  | smallN (r c : VarName)
  | asymR (a b : VarName)
  | asymN (a b : VarName)
  | highR (a b : VarName)
  | noEdges
  | invalidTotalN
  | dfZero
  | exception (msg : String)
  | rMismatchAvg (a b : VarName)
  | nMismatchMin (a b : VarName)
deriving DecidableEq, Repr

/-- Result record of `validateCellMatrix`. -/
structure ValidationResult where
  ok : Bool
  errors : List Finding
  warnings : List Finding
deriving DecidableEq, Repr

/-- The per-cell checks of `validateCellMatrix` (lines 243-270): existence,
finiteness and bounds of `r`, the diagonal rule, and the `n` rules. -/
def checkCell (M : CellMatrix) (r c : VarName) : List Finding :=
  match cellAt M r c with
  | none => [.missingCell r c]
  | some cell =>
    let isDiag := r = c
    let rErrs :=
      match cell.r with
      | none => [.invalidR r c]
      | some rr =>
        (if rr < -1 ∨ 1 < rr then [.outOfBounds r c] else []) ++
        (if isDiag ∧ eps6 < qabs (rr - 1) then [.badDiag r c] else [])
    let nErrs :=
      if isDiag then []
      else
        match cell.n with
        | none => [.missingN r c]
        | some nn => if nn ≤ 2 then [.smallN r c] else []
    rErrs ++ nErrs

/-- The per-pair checks of `validateCellMatrix` (lines 272-291): symmetry of
`r` (an error) and of `n` (a warning), and the near-unity warning.  Returns
`none` when the bare access `M[a][b].r` at line 286 would crash on an
absent cell (an uncaught TypeError). -/
def pairCheck (M : CellMatrix) (a b : VarName) : Option (List Finding × List Finding) :=
  let c1 := cellAt M a b
  let c2 := cellAt M b a
  let errs :=
    match c1.bind Cell.r, c2.bind Cell.r with
    | some q1, some q2 => if eps6 < qabs (q1 - q2) then [Finding.asymR a b] else []
    | _, _ => []
  let warns :=
    match c1.bind Cell.n, c2.bind Cell.n with
    | some n1, some n2 => if eps6 < qabs (n1 - n2) then [Finding.asymN a b] else []
    | _, _ => []
  match c1 with
  | none => none
  | some cell =>
    let warns2 :=
      match cell.r with
      | some rr => if nearOne ≤ qabs rr then [Finding.highR a b] else []
      | none => []
    some (errs, warns ++ warns2)

/-- `validateCellMatrix(vars, M)`.  Missing rows are reported and the
function returns at once; otherwise all per-cell findings and then all
per-pair findings are accumulated.  `none` models the uncaught TypeError
described at `pairCheck`. -/
def validateCellMatrix (vars : List VarName) (M : CellMatrix) : Option ValidationResult :=
  let missing := (vars.filter fun r => (M r).isNone).map Finding.missingRow
  if missing.isEmpty then
    let cellErrs := vars.flatMap fun r => vars.flatMap fun c => checkCell M r c
    match (indexPairs vars.length).mapM
        (fun p => pairCheck M (vars.getD p.1 "") (vars.getD p.2 "")) with
    | none => none
    | some results =>
      let errors := cellErrs ++ (results.map Prod.fst).flatten
      let warnings := (results.map Prod.snd).flatten
      some ⟨errors.isEmpty, errors, warnings⟩
  else some ⟨false, missing, []⟩

/-- `symN(M, a, b)` (lines 300-307): the reconciled pairwise sample size. -/
def symN (M : CellMatrix) (a b : VarName) : Fl :=
  match getCellN M a b, getCellN M b a with
  | some n1, some n2 => some (qmin n1 n2)
  | some n1, none => some n1
  | none, some n2 => some n2
  | none, none => none

/-- The two N-aggregation modes. -/
inductive NMethod where
  | harmonic
  | min
deriving DecidableEq, Repr

/-- `computeTotalN(vars, M, method)` (lines 309-323). -/
def computeTotalN (vars : List VarName) (M : CellMatrix) (method : NMethod) : Fl :=
  let ns := (indexPairs vars.length).filterMap
    fun p => symN M (vars.getD p.1 "") (vars.getD p.2 "")
  match ns with
  | [] => none
  | n0 :: rest =>
    match method with
    | .min => some (rest.foldl qmin n0)
    | .harmonic => some (((n0 :: rest).length : ℚ) / ((n0 :: rest).foldl (fun d n => d + 1 / n) 0))

/-! ### The small dense-matrix kernel (lines 325-417)

Matrices are `List (List Fl)`; an out-of-range index yields `none`,
matching the NaN that JS arithmetic makes of `undefined`. -/

/-- `A[i][j]` with out-of-range access giving a non-finite value. -/
def entryL (A : List (List Fl)) (i j : Nat) : Fl :=
  (A.getD i []).getD j none

/-- `matIdentity(n)`. -/
def matIdentity (n : Nat) : List (List Fl) :=
  (List.range n).map fun i => (List.range n).map fun j => if i = j then some 1 else some 0

/-- `transpose(A)`: `A[0].map((_, j) => A.map(row => row[j]))`. -/
def transposeM (A : List (List Fl)) : List (List Fl) :=
  (List.range (A.getD 0 []).length).map fun j => A.map fun row => row.getD j none

/-- `vecDot(a, b)`: `a.reduce((s, x, i) => s + x*b[i], 0)`. -/
def vecDot (a b : List Fl) : Fl :=
  a.enum.foldl (fun s p => flAdd s (flMul p.2 (b.getD p.1 none))) (some 0)

/-- `matVecMul(A, v)`: each row reduced against `v`. -/
def matVecMul (A : List (List Fl)) (v : List Fl) : List Fl :=
  A.map fun row => vecDot row v

/-- `matMul(A, B)` with `n = A.length`, `m = B[0].length`, `k = B.length`. -/
def matMul (A B : List (List Fl)) : List (List Fl) :=
  A.map fun rowA =>
    (List.range (B.getD 0 []).length).map fun j =>
      (List.range B.length).foldl (fun s t => flAdd s (flMul (rowA.getD t none) (entryL B t j))) (some 0)

/-- `matTrace(A)`: `A.reduce((s, row, i) => s + row[i], 0)`. -/
def matTrace (A : List (List Fl)) : Fl :=
  A.enum.foldl (fun s p => flAdd s (p.2.getD p.1 none)) (some 0)

/-- The exact message of the `SingularMatrixError` thrown by `matInverse`. -/
def singularMsg : String :=
  "Matrix is singular (cannot invert). Consider removing/adjusting variables or paths."

/-- Partial-pivot search of `matInverse`/`matDet`: the index in `[col, n)`
maximising `|M[r][col]|` (ties and NaN keep the earlier row, as the strict
`>` comparison of the source does). -/
def pivotRowIdx (M : List (List Fl)) (col n : Nat) : Nat :=
  ((List.range n).drop col).foldl
    (fun p r => if flAbsGt (entryL M r col) (entryL M p col) then r else p) col

/-- Does the Gauss-Jordan elimination find only a too-small best pivot in
column `col` of the (partially eliminated) matrix `M`? -/
def gjSmall (M : List (List Fl)) (col n : Nat) : Bool :=
  flAbsLt (entryL M (pivotRowIdx M col n) col) eps12

/-- Swap of two rows. -/
def swapRows (A : List (List Fl)) (i j : Nat) : List (List Fl) :=
  (A.set i (A.getD j [])).set j (A.getD i [])

/-- Division of row `col` by the pivot. -/
def scaleRow (A : List (List Fl)) (col : Nat) (piv : Fl) : List (List Fl) :=
  A.set col ((A.getD col []).map fun x => flDiv x piv)

/-- One column step of the Gauss-Jordan loop of `matInverse`
(lines 363-389): pivot search, singularity check, swap, normalise,
eliminate every other row of both `M` and `I` using the factors read
from `M`. -/
def gjStep (n : Nat) (st : List (List Fl) × List (List Fl)) (col : Nat) :
    Except String (List (List Fl) × List (List Fl)) :=
  let M := st.1
  let I := st.2
  let p := pivotRowIdx M col n
  if gjSmall M col n then .error singularMsg
  else
    let M1 := swapRows M col p
    let I1 := swapRows I col p
    let piv := entryL M1 col col
    let M2 := scaleRow M1 col piv
    let I2 := scaleRow I1 col piv
    let factors := M2.map fun row => row.getD col none
    let elim := fun (X : List (List Fl)) (pivRow : List Fl) =>
      X.enum.map fun q =>
        if q.1 = col then q.2
        else q.2.enum.map fun e => flSub e.2 (flMul (factors.getD q.1 none) (pivRow.getD e.1 none))
    .ok (elim M2 (M2.getD col []), elim I2 (I2.getD col []))

/-- `matInverse(A)`: Gauss-Jordan with partial pivoting; throws the
singular-matrix error when the best pivot is below `1e-12`. -/
def matInverse (A : List (List Fl)) : Except String (List (List Fl)) :=
  ((List.range A.length).foldlM (gjStep A.length) (A, matIdentity A.length)).map Prod.snd

/-- The elimination state after the first `k` columns of `matInverse`. -/
def gjPartial (A : List (List Fl)) (k : Nat) :
    Except String (List (List Fl) × List (List Fl)) :=
  (List.range k).foldlM (gjStep A.length) (A, matIdentity A.length)

/-- One column step of `matDet` (lines 393-413); `none` models the early
`return 0` on a too-small pivot. -/
def detStep (n : Nat) (st : Option (List (List Fl) × Fl)) (i : Nat) :
    Option (List (List Fl) × Fl) :=
  match st with
  | none => none
  | some (M, det) =>
    let p := pivotRowIdx M i n
    if gjSmall M i n then none
    else
      let M1 := if p = i then M else swapRows M i p
      let det1 := if p = i then det else flMul det (some (-1))
      let piv := entryL M1 i i
      let det2 := flMul det1 piv
      let M2 := M1.enum.map fun q =>
        if q.1 ≤ i then q.2
        else
          let f := flDiv (q.2.getD i none) piv
          q.2.enum.map fun e =>
            if e.1 < i then e.2 else flSub e.2 (flMul f ((M1.getD i []).getD e.1 none))
      some (M2, det2)

/-- `matDet(A)`: pivoted elimination, returning `0` (without throwing)
when a pivot is numerically zero. -/
def matDet (A : List (List Fl)) : Fl :=
  match (List.range A.length).foldl (detStep A.length) (some (A, some 1)) with
  | none => some 0
  | some (_, det) => det

/-! ### SEM-lite estimation (lines 422-562) -/

/-- `type Edge = { from, to }` (`from` is a Lean keyword, hence `from_`). -/
structure Edge where
  from_ : VarName
  to_ : VarName
deriving DecidableEq, Repr

/-- `type Coef = { from, to, beta }`. -/
structure Coef where
  from_ : VarName
  to_ : VarName
  beta : Fl
deriving DecidableEq, Repr

/-- `parentsOf(node, edges)`. -/
def parentsOf (node : VarName) (edges : List Edge) : List VarName :=
  (edges.filter fun e => e.to_ = node).map Edge.from_

/-- Lookup in a JS string-keyed record modelled as an association list
where the last binding wins. -/
def recLookup (l : List (VarName × Fl)) (v : VarName) : Option Fl :=
  (l.reverse.find? fun p => p.1 = v).map Prod.snd

/-- Accumulator of `estimatePathsFromCorrelation`: the pushed coefficients
and the `r2`/`resid` records. -/
structure EstAcc where
  coeffs : List Coef
  r2 : List (VarName × Fl)
  resid : List (VarName × Fl)
deriving DecidableEq, Repr

/-- The loop body of `estimatePathsFromCorrelation` for one variable `y`
(lines 436-451). -/
def estStep (cellM : CellMatrix) (edges : List Edge) (acc : EstAcc) (y : VarName) :
    Except String EstAcc :=
  let X := parentsOf y edges
  if X.isEmpty then .ok acc
  else
    let Rxx := X.map fun a => X.map fun b => getCellR cellM a b
    let rXy := X.map fun a => getCellR cellM a y
    (matInverse Rxx).map fun inv =>
      let beta := matVecMul inv rXy
      let R2 := vecDot rXy beta
      { coeffs := acc.coeffs ++ (X.enum.map fun p => ⟨p.2, y, beta.getD p.1 none⟩),
        r2 := acc.r2 ++ [(y, R2)],
        resid := acc.resid ++ [(y, flMax (some eps8) (flSub (some 1) R2))] }

/-- `estimatePathsFromCorrelation(vars, cellM, edges)` (lines 426-458),
including the defensive `resid[v] = 1` pass for endogenous variables that
somehow acquired no residual entry. -/
def estimatePathsFromCorrelation (vars : List VarName) (cellM : CellMatrix)
    (edges : List Edge) : Except String EstAcc :=
  (vars.foldlM (estStep cellM edges) ⟨[], [], []⟩).map fun acc =>
    { acc with
      resid := vars.foldl
        (fun res v =>
          if decide (v ∈ edges.map Edge.to_) ∧ (recLookup res v).isNone
          then res ++ [(v, some 1)] else res)
        acc.resid }

/-- `buildRMatrix(vars, M)` (lines 296-298). -/
def buildRMatrix (vars : List VarName) (M : CellMatrix) : List (List Fl) :=
  vars.map fun r => vars.map fun c => getCellR M r c

/-- `Object.fromEntries(vars.map((v, i) => [v, i]))`: the index of the
*last* occurrence of `v` in `vars` (later entries overwrite). -/
def idxOf (vars : List VarName) (v : VarName) : Option Nat :=
  vars.enum.foldl (fun acc p => if p.2 = v then some p.1 else acc) none

/-- `A[i][j] = x` on a list-of-lists matrix. -/
def setEntry (A : List (List Fl)) (i j : Nat) (x : Fl) : List (List Fl) :=
  A.set i ((A.getD i []).set j x)

/-- `impliedSigmaRecursive(vars, S, edges, coeffs, residVar)`
(lines 460-504): `Sigma = (I-B)⁻¹ Psi (I-B)⁻ᵗ`. -/
def impliedSigmaRecursive (vars : List VarName) (S : List (List Fl)) (edges : List Edge)
    (coeffs : List Coef) (residVar : List (VarName × Fl)) :
    Except String (List (List Fl)) :=
  let p := vars.length
  let endo := edges.map Edge.to_
  let B0 := (List.range p).map fun _ => (List.range p).map fun _ => (some 0 : Fl)
  let B := coeffs.foldl
    (fun B e =>
      match idxOf vars e.to_, idxOf vars e.from_ with
      | some i, some j => setEntry B i j e.beta
      | _, _ => B)
    B0
  let exoIdx := vars.enum.filterMap fun q => if decide (q.2 ∈ endo) then none else some q.1
  let Psi0 := (List.range p).map fun _ => (List.range p).map fun _ => (some 0 : Fl)
  let Psi1 := exoIdx.foldl
    (fun Ps i => exoIdx.foldl (fun Ps j => setEntry Ps i j (entryL S i j)) Ps) Psi0
  let Psi := vars.foldl
    (fun Ps v =>
      if decide (v ∈ endo) then
        match idxOf vars v with
        | some i => setEntry Ps i i (flMax (some eps8) ((recLookup residVar v).getD (some 1)))
        | none => Ps
      else Ps)
    Psi1
  let I := matIdentity p
  let IminusB := I.enum.map fun q => q.2.enum.map fun e => flSub e.2 (entryL B q.1 e.1)
  (matInverse IminusB).map fun inv => matMul (matMul inv Psi) (transposeM inv)

/-- Lifting of the abstract `Math.sqrt`/`Math.log` parameter to `Fl`. -/
def flApp (f : ℚ → ℚ) : Fl → Fl
  | some q => some (f q)
  | none => none

/-- `srmrOffDiag(S, Sigma)` (lines 506-518). -/
def srmrOffDiag (sqrtf : ℚ → ℚ) (S Sigma : List (List Fl)) : Fl :=
  let p := S.length
  let pairs := indexPairs p
  let sum := pairs.foldl
    (fun s q =>
      let d := flSub (entryL S q.1 q.2) (entryL Sigma q.1 q.2)
      flAdd s (flMul d d))
    (some 0)
  flApp sqrtf (flDiv sum (some (qmax 1 (pairs.length : ℚ))))

/-- The exact message of the `NotPositiveDefiniteError` thrown by `fitML`. -/
def notPDMsg : String :=
  "Observed/implied matrix not positive definite (det<=0). Check correlations or model constraints."

/-- `fitML(S, Sigma, N)` (lines 520-544): the ML fit function for the
model and for the independence model. -/
def fitML (logf : ℚ → ℚ) (S Sigma : List (List Fl)) (N : Fl) :
    Except String (Fl × Fl) :=
  let p := S.length
  let detS := matDet S
  let detSig := matDet Sigma
  if flLe0 detS ∨ flLe0 detSig then .error notPDMsg
  else
    (matInverse Sigma).bind fun SigInv =>
      let tr := matTrace (matMul S SigInv)
      let Fml := flSub (flSub (flAdd (flApp logf detSig) tr) (flApp logf detS)) (some p)
      let chi2 := flMul (flSub N (some 1)) Fml
      let Sigma0 := (List.range p).map fun i =>
        (List.range p).map fun j => if i = j then entryL S i i else some 0
      let det0 := matDet Sigma0
      (matInverse Sigma0).map fun inv0 =>
        let tr0 := matTrace (matMul S inv0)
        let F0 := flSub (flSub (flAdd (flApp logf det0) tr0) (flApp logf detS)) (some p)
        let chi2_0 := flMul (flSub N (some 1)) F0
        (chi2, chi2_0)

/-- `computeFitIndices({chi2, df, chi2_0, df0, N})` (lines 546-552). -/
def computeFitIndices (sqrtf : ℚ → ℚ) (chi2 : Fl) (df : Nat) (chi2_0 : Fl) (df0 : Nat)
    (N : Fl) : Fl × Fl × Fl :=
  let cfi := flSub (some 1)
    (flDiv (flMax (some 0) (flSub chi2 (some df)))
           (flMax (some eps12) (flSub chi2_0 (some df0))))
  let tli := flSub (some 1)
    (flDiv (flSub (flDiv chi2 (flMax (some eps12) (some df))) (some 1))
           (flSub (flDiv chi2_0 (flMax (some eps12) (some df0))) (some 1)))
  let rmsea := flApp sqrtf
    (flMax (some 0)
      (flDiv (flSub chi2 (some df)) (flMul (flMax (some eps12) (some df)) (flSub N (some 1)))))
  (cfi, tli, rmsea)

/-- The degrees-of-freedom record of `countDF`. -/
structure DFInfo where
  df : Nat
  df0 : Nat
  observedMoments : Nat
  freeParams : Nat
  endoCount : Nat
deriving DecidableEq, Repr

/-- `countDF(vars, edges)` (lines 554-562).  All quantities are
non-negative integers; `Math.max(0, observedMoments - freeParams)` is the
truncated subtraction. -/
def countDF (vars : List VarName) (edges : List Edge) : DFInfo :=
  let observedMoments := vars.length * (vars.length + 1) / 2
  let endoCount := (vars.filter fun v => decide (v ∈ edges.map Edge.to_)).length
  let freeParams := edges.length + endoCount
  let df := observedMoments - freeParams
  let df0 := vars.length * (vars.length - 1) / 2
  ⟨df, df0, observedMoments, freeParams, endoCount⟩

/-! ### The estimation run (lines 801-856) -/

/-- `type Fit` (lines 25-37); the four χ²-derived fields are optional. -/
structure Fit where
  totalN : Fl
  N_method : NMethod
  SRMR : Fl
  df : Nat
  observedMoments : Nat
  freeParams : Nat
  endogenousCount : Nat
  chi2 : Option Fl
  rmsea : Option Fl
  cfi : Option Fl
  tli : Option Fl
deriving DecidableEq, Repr

/-- `type EstResult` (lines 39-44). -/
structure EstResult where
  coeffs : List Coef
  r2 : List (VarName × Fl)
  resid : List (VarName × Fl)
  fit : Fit
deriving DecidableEq, Repr

/-- The state written by `runEstimationAndStore`: `matrixErrors`,
`matrixWarnings` and `lastEst`. -/
structure RunOutcome where
  errors : List Finding
  warnings : List Finding
  lastEst : Option EstResult
deriving DecidableEq, Repr

/-- `!Number.isFinite(N) || N <= 2` of line 810. -/
def invalidTotalNCheck : Fl → Bool
  | none => true
  | some q => decide (q ≤ 2)

/-- The `try` block of `runEstimationAndStore` (lines 820-850): build `S`,
estimate, reconstruct `Sigma`, SRMR, degrees of freedom, and the
χ²-derived indices only when `df > 0` (otherwise the df-zero warning). -/
def runPipeline (sqrtf logf : ℚ → ℚ) (vars : List VarName) (M : CellMatrix)
    (edges : List Edge) (nMethod : NMethod) (N : Fl) :
    Except String (EstResult × List Finding) :=
  let S := buildRMatrix vars M
  (estimatePathsFromCorrelation vars M edges).bind fun est =>
    (impliedSigmaRecursive vars S edges est.coeffs est.resid).bind fun Sigma =>
      let srmr := srmrOffDiag sqrtf S Sigma
      let d := countDF vars edges
      if 0 < d.df then
        (fitML logf S Sigma N).map fun c =>
          let fi := computeFitIndices sqrtf c.1 d.df c.2 d.df0 N
          (⟨est.coeffs, est.r2, est.resid,
            ⟨N, nMethod, srmr, d.df, d.observedMoments, d.freeParams, d.endoCount,
             some c.1, some fi.2.2, some fi.1, some fi.2.1⟩⟩, [])
      else
        .ok (⟨est.coeffs, est.r2, est.resid,
              ⟨N, nMethod, srmr, d.df, d.observedMoments, d.freeParams, d.endoCount,
               none, none, none, none⟩⟩, [Finding.dfZero])

/-- The error list accumulated by `runEstimationAndStore` before the `try`
block (lines 805-818): the no-edges error, the validator errors, and the
invalid-total-N error. -/
def storeErrors (edges : List Edge) (v : ValidationResult) (N : Fl) : List Finding :=
  ((if edges.isEmpty then [Finding.noEdges] else []) ++
   (if v.ok then [] else v.errors)) ++
  (if v.ok ∧ invalidTotalNCheck N then [Finding.invalidTotalN] else [])

/-- The state stored by `runEstimationAndStore` (lines 819-855): when no
error accumulated, run the `try` block and store its result (or the caught
exception); otherwise store the errors and clear `lastEst`. -/
def storeOutcome (v : ValidationResult) (errors : List Finding)
    (rp : Except String (EstResult × List Finding)) : RunOutcome :=
  if errors.isEmpty then
    match rp with
    | .error msg => ⟨[Finding.exception msg], v.warnings, none⟩
    | .ok (res, extraW) => ⟨[], v.warnings ++ extraW, some res⟩
  else ⟨errors, v.warnings, none⟩

/-- `runEstimationAndStore` (lines 801-856).  The outer `none` models the
validator crash (which happens outside the `try`); otherwise the outcome
holds the stored errors, warnings and `lastEst`. -/
def runEstimationAndStore (sqrtf logf : ℚ → ℚ) (vars : List VarName) (M : CellMatrix)
    (edges : List Edge) (nMethod : NMethod) : Option RunOutcome :=
  (validateCellMatrix vars M).map fun v =>
    let N := if v.ok then computeTotalN vars M nMethod else none
    storeOutcome v (storeErrors edges v N)
      (runPipeline sqrtf logf vars M edges nMethod N)

/-! ### Matrix construction and mutation (lines 104-232, 626-644, 727-744),
and the symmetry-reconciliation pass of the copy variant
(`parseMatrixText`, copy lines 229-270). -/

/-- `Partial<Cell>`: each field optionally present. -/
structure CellPatch where
  r : Option Fl
  n : Option Fl
deriving DecidableEq, Repr

/-- The spread `{ ...old, ...patch }`. -/
def mergePatch (old : Cell) (patch : CellPatch) : Cell :=
  ⟨patch.r.getD old.r, patch.n.getD old.n⟩

/-- The grid editor `setCell(r, c, patch)` (lines 727-744): write the
patched cell, mirror it to the symmetric slot when `r ≠ c`, and force the
diagonal cell when `r = c`. -/
def setCell (M : CellMatrix) (r c : VarName) (patch : CellPatch) : CellMatrix :=
  let old := (cellAt M r c).getD ⟨none, none⟩
  let M1 := updCell M r c (mergePatch old patch)
  if r ≠ c then
    let old2 := (cellAt M1 c r).getD ⟨none, none⟩
    updCell M1 c r (mergePatch old2 patch)
  else updCell M1 r c diagCell

/-- The all-absent matrix (`const M = {}` before rows are added). -/
def emptyCellMatrix : CellMatrix := fun _ => none

/-- `makeEmptyCellMatrix(vars)` (lines 208-218). -/
def makeEmptyCellMatrix (vars : List VarName) : CellMatrix :=
  vars.foldl
    (fun M r => vars.foldl
      (fun M c => updCell M r c (if r = c then diagCell else ⟨none, none⟩)) M)
    emptyCellMatrix

/-- `carryOverCellMatrix(oldVars, oldM, newVars, newM)` (lines 220-232):
copy every cell of `oldM` whose coordinates survive, then force the
diagonal of every new variable. -/
def carryOverCellMatrix (oldVars : List VarName) (oldM : CellMatrix)
    (newVars : List VarName) (newM : CellMatrix) : CellMatrix :=
  let M1 := newVars.foldl
    (fun M r =>
      if decide (r ∈ oldVars) then
        newVars.foldl
          (fun M c =>
            if decide (c ∈ oldVars) then
              match cellAt oldM r c with
              | some cell => updCell M r c ⟨cell.r, cell.n⟩
              | none => M
            else M)
          M
      else M)
    newM
  newVars.foldl (fun M v => updCell M v v diagCell) M1

/-- `pairKey(a, b)` (lines 104-107): the sorted pair joined by a bar. -/
def pairKey (a b : VarName) : String :=
  if a ≤ b then a ++ "|" ++ b else b ++ "|" ++ a

/-- The four base variables. -/
def BASE_VARS : List VarName := ["loyalty", "satisfaction", "value", "quality"]

/-- The sample types of `SAMPLE_PRESETS`. -/
inductive SampleType where
  | All
  | Lodging
  | Restaurant
  | TourismAndTravel
deriving DecidableEq, Repr

/-- `SAMPLE_PRESETS[sample].pair[key]` (lines 56-102). -/
def samplePreset : SampleType → String → Option (ℚ × ℚ)
  | .All, "loyalty|satisfaction" => some (734 / 1000, 63671)
  | .All, "loyalty|value" => some (545 / 1000, 81110)
  | .All, "loyalty|quality" => some (575 / 1000, 52764)
  | .All, "satisfaction|value" => some (708 / 1000, 37150)
  | .All, "quality|satisfaction" => some (711 / 1000, 34677)
  | .All, "quality|value" => some (561 / 1000, 58390)
  | .Lodging, "loyalty|satisfaction" => some (726 / 1000, 19271)
  | .Lodging, "loyalty|value" => some (675 / 1000, 11993)
  | .Lodging, "loyalty|quality" => some (547 / 1000, 12251)
  | .Lodging, "satisfaction|value" => some (77 / 100, 12705)
  | .Lodging, "quality|satisfaction" => some (922 / 1000, 8859)
  | .Lodging, "quality|value" => some (784 / 1000, 9268)
  | .Restaurant, "loyalty|satisfaction" => some (707 / 1000, 10048)
  | .Restaurant, "loyalty|value" => some (693 / 1000, 6599)
  | .Restaurant, "loyalty|quality" => some (532 / 1000, 10941)
  | .Restaurant, "satisfaction|value" => some (72 / 100, 6710)
  | .Restaurant, "quality|satisfaction" => some (714 / 1000, 7936)
  | .Restaurant, "quality|value" => some (6 / 10, 7301)
  | .TourismAndTravel, "loyalty|satisfaction" => some (739 / 1000, 32943)
  | .TourismAndTravel, "loyalty|value" => some (503 / 1000, 62257)
  | .TourismAndTravel, "loyalty|quality" => some (598 / 1000, 28903)
  | .TourismAndTravel, "satisfaction|value" => some (661 / 1000, 17474)
  | .TourismAndTravel, "quality|satisfaction" => some (601 / 1000, 16283)
  | .TourismAndTravel, "quality|value" => some (501 / 1000, 41821)
  | _, _ => none

/-- `buildPresetBaseMatrix(sample)` (lines 626-644): the empty base
matrix, the six preset pairs written symmetrically, then the forced
diagonal. -/
def buildPresetBaseMatrix (sample : SampleType) : CellMatrix :=
  let M0 := makeEmptyCellMatrix BASE_VARS
  let M1 := (indexPairs BASE_VARS.length).foldl
    (fun M p =>
      let a := BASE_VARS.getD p.1 ""
      let b := BASE_VARS.getD p.2 ""
      match samplePreset sample (pairKey a b) with
      | some v => updCell (updCell M a b ⟨some v.1, some v.2⟩) b a ⟨some v.1, some v.2⟩
      | none => M)
    M0
  BASE_VARS.foldl (fun M v => updCell M v v diagCell) M1

/-- The row-building loop of `parseCombinedMatrixText` (lines 178-190):
each data row replaces its named row of the accumulated matrix, filling
one cell per header column via the token parser. -/
def parseDataRows (pTok : String → Bool → Cell) (header : List String)
    (vars : List VarName) : List (Nat × List String) → Except String CellMatrix :=
  fun rows => rows.foldlM
    (fun (M : CellMatrix) (q : Nat × List String) =>
      let rowName := q.2.getD 0 ""
      if rowName = "" then .error "Row has empty variable name."
      else
        let newRow : Row := (List.range (header.length - 1)).foldl
          (fun rf j => fun c =>
            if c = vars.getD j "" then
              some (pTok (q.2.getD (j + 1) "") (rowName = vars.getD j ""))
            else rf c)
          (fun _ => none)
        .ok (fun r' => if r' = rowName then some newRow else M r'))
    emptyCellMatrix

/-- `parseCombinedMatrixText(text)` (lines 157-206), factored over the
token parser: `pTok` abstracts the numeric-literal lexing of
`parseCellToken` (a regular-expression match), and `rows` is the result of
the line/field splitting of lines 161-168 (trimmed fields, blank lines
removed).  Everything from the header checks to the forced diagonal is
modelled; all claims about this function are independent of `pTok`. -/
def parseCombinedMatrixText (pTok : String → Bool → Cell) (rows : List (List String)) :
    Except String (List VarName × CellMatrix) :=
  if rows.length < 2 then .error "Matrix needs at least 2 rows."
  else
    let header := rows.getD 0 []
    if header.length < 2 then .error "Header row must include variable names."
    else
      let vars := header.drop 1
      if vars.any fun v => v = "" then .error "Header contains empty variable name."
      else if vars.dedup.length ≠ vars.length then .error "Duplicate variable names in header."
      else
        (parseDataRows pTok header vars (rows.enum.drop 1)).bind fun M =>
          if vars.any fun r => (M r).isNone then .error "Missing row. Row names must match header."
          else if (unordPairs vars).any (fun p => (cellAt M p.1 p.2).isNone) ∨
              vars.any (fun r => (cellAt M r r).isNone) then .error "Missing cell."
          else
            .ok (vars, vars.foldl (fun M v => updCell M v v diagCell) M)

/-- `clampR(x)` of the copy variant (copy lines 82-87). -/
def clampR : Fl → Fl
  | none => none
  | some q => some (if 999 / 1000 < q then 999 / 1000 else if q < -(999 / 1000) then -(999 / 1000) else q)

/-- The reconciled `r` of one pair (copy lines 252-256): average (clamped)
with a warning on a mismatch beyond `1e-6`, else the first finite side. -/
def rPairRes (x y : Fl) (a b : VarName) : Fl × List Finding :=
  match x, y with
  | some q1, some q2 =>
    if eps6 < qabs (q1 - q2) then (clampR (some ((q1 + q2) / 2)), [Finding.rMismatchAvg a b])
    else (some q1, [])
  | some q1, none => (some q1, [])
  | none, some q2 => (some q2, [])
  | none, none => (none, [])

/-- The reconciled `n` of one pair (copy lines 258-262): minimum with a
warning on a mismatch beyond `1e-6`, else the first finite side. -/
def nPairRes (x y : Fl) (a b : VarName) : Fl × List Finding :=
  match x, y with
  | some n1, some n2 =>
    if eps6 < qabs (n1 - n2) then (some (qmin n1 n2), [Finding.nMismatchMin a b])
    else (some n1, [])
  | some n1, none => (some n1, [])
  | none, some n2 => (some n2, [])
  | none, none => (none, [])

/-- One pair of the symmetry-reconciliation loop of the copy variant's
`parseMatrixText` (copy lines 232-266): reconcile `r` and `n`, write the
reconciled cell to both slots, and append the warnings. -/
def reconcilePair (st : CellMatrix × List Finding) (a b : VarName) :
    CellMatrix × List Finding :=
  let m := st.1
  let ab := (cellAt m a b).getD ⟨none, none⟩
  let ba := (cellAt m b a).getD ⟨none, none⟩
  let rRes := rPairRes ab.r ba.r a b
  let nRes := nPairRes ab.n ba.n a b
  let cell : Cell := ⟨rRes.1, nRes.1⟩
  (updCell (updCell m a b cell) b a cell, st.2 ++ rRes.2 ++ nRes.2)

/-- The whole symmetry-reconciliation pass of the copy variant's
`parseMatrixText` (copy lines 229-270), including the final forced
diagonal. -/
def reconcileSymmetry (vars : List VarName) (m : CellMatrix) :
    CellMatrix × List Finding :=
  let st := (indexPairs vars.length).foldl
    (fun st p => reconcilePair st (vars.getD p.1 "") (vars.getD p.2 "")) (m, [])
  (vars.foldl (fun M v => updCell M v v diagCell) st.1, st.2)

/-! ### The cell set read by the estimator (for the non-interference
claim C10). -/

/-- The cells `estimatePathsFromCorrelation` can read: `(a, b)` where `a`
and `b` are parents of one and the same endogenous variable (the `Rxx`
reads), or `a` is a parent of the endogenous variable `b` (the `rXy`
reads). -/
def ReadCell (edges : List Edge) (a b : VarName) : Prop :=
  (∃ y, a ∈ parentsOf y edges ∧ b ∈ parentsOf y edges) ∨ a ∈ parentsOf b edges

/-! ### Derived forms used by the theorems -/

/-- The findings of `pairCheck M a b` when the cell access at line 286
cannot crash (both components of `pairCheck`'s `some`). -/
def pairFindings (M : CellMatrix) (a b : VarName) : List Finding × List Finding :=
  let c1 := cellAt M a b
  let c2 := cellAt M b a
  let errs :=
    match c1.bind Cell.r, c2.bind Cell.r with
    | some q1, some q2 => if eps6 < qabs (q1 - q2) then [Finding.asymR a b] else []
    | _, _ => []
  let warns :=
    match c1.bind Cell.n, c2.bind Cell.n with
    | some n1, some n2 => if eps6 < qabs (n1 - n2) then [Finding.asymN a b] else []
    | _, _ => []
  let warns2 :=
    match c1.bind Cell.r with
    | some rr => if nearOne ≤ qabs rr then [Finding.highR a b] else []
    | none => []
  (errs, warns ++ warns2)

/-- The full error list of a non-crashing validation run: all per-cell
findings, then all per-pair symmetry findings. -/
def validateErrors (vars : List VarName) (M : CellMatrix) : List Finding :=
  (vars.flatMap fun r => vars.flatMap fun c => checkCell M r c) ++
  ((indexPairs vars.length).map
    fun p => (pairFindings M (vars.getD p.1 "") (vars.getD p.2 "")).1).flatten

/-- The full warning list of a non-crashing validation run. -/
def validateWarnings (vars : List VarName) (M : CellMatrix) : List Finding :=
  ((indexPairs vars.length).map
    fun p => (pairFindings M (vars.getD p.1 "") (vars.getD p.2 "")).2).flatten

/-- Every row and every cell over `vars` is present in `M`. -/
def cellsPresent (vars : List VarName) (M : CellMatrix) : Prop :=
  ∀ a ∈ vars, ∀ b ∈ vars, (cellAt M a b).isSome

/-! ### Concrete inputs used by the witnesses and counterexamples -/

/-- A total two-variable matrix with forced diagonal and the given
off-diagonal cell on both sides. -/
def twoVarSym (a b : VarName) (cell : Cell) : CellMatrix := fun r =>
  if r = a then some (fun c => if c = a then some diagCell else if c = b then some cell else none)
  else if r = b then some (fun c => if c = b then some diagCell else if c = a then some cell else none)
  else none

/-- Off-diagonal correlation exactly 1 with a valid sample size: the
input exhibiting that `|r| = 1` passes validation. -/
def mC2 : CellMatrix := twoVarSym "a" "b" ⟨some 1, some 10⟩

/-- The validation result on `mC2`. -/
def c2res : ValidationResult := ⟨true, [], [Finding.highR "a" "b"]⟩

/-- A matrix with row `"a"` only (row `"b"` missing) and a bad diagonal
`r("a","a") = 5`: the input showing that a missing row aborts all other
checks. -/
def mC7 : CellMatrix := fun r =>
  if r = "a" then
    some (fun c =>
      if c = "a" then some ⟨some 5, none⟩
      else if c = "b" then some ⟨some (1 / 2), some 10⟩ else none)
  else none

/-- The validation result on `mC7`: only the missing-row error. -/
def c7res : ValidationResult := ⟨false, [Finding.missingRow "b"], []⟩

/-- A total matrix with an out-of-bounds correlation and a too-small
sample size, for the accumulation witness. -/
def mC7w : CellMatrix := twoVarSym "a" "b" ⟨some (3 / 2), some 1⟩

/-- The validation result on `mC7w`. -/
def c7wres : ValidationResult :=
  ⟨false,
   [Finding.outOfBounds "a" "b", Finding.smallN "a" "b",
    Finding.outOfBounds "b" "a", Finding.smallN "b" "a"],
   [Finding.highR "a" "b"]⟩

/-- A total two-variable matrix with distinct cells on the two sides. -/
def twoVarAsym (a b : VarName) (cab cba : Cell) : CellMatrix := fun r =>
  if r = a then some (fun c => if c = a then some diagCell else if c = b then some cab else none)
  else if r = b then some (fun c => if c = b then some diagCell else if c = a then some cba else none)
  else none

/-- Mismatched correlations `r(a,b) = 0.5` and `r(b,a) = 0.3`: the input
exhibiting that validation treats the mismatch as an error. -/
def mC1 : CellMatrix :=
  twoVarAsym "a" "b" ⟨some (1 / 2), some 10⟩ ⟨some (3 / 10), some 10⟩

/-- The validation result on `mC1`: one symmetry error, no warnings. -/
def c1res : ValidationResult := ⟨false, [Finding.asymR "a" "b"], []⟩

/-- A two-variable matrix where only the `("a","b")` side has a finite
correlation (`r("b","a")` is NaN), for the single-sided branch. -/
def mC1s : CellMatrix :=
  twoVarAsym "a" "b" ⟨some (1 / 2), some 10⟩ ⟨none, some 10⟩

/-- Four edges over three variables, one of them targeting a variable
absent from the list. -/
def c5edges : List Edge := [⟨"a", "b"⟩, ⟨"a", "c"⟩, ⟨"b", "c"⟩, ⟨"a", "z"⟩]

/-- Specification-side pair collection for `computeTotalN`, following the
claim's words: one reconciled `n` per unique unordered variable pair,
skipping pairs with no valid `n`. -/
def specCollectedNs (vars : List VarName) (M : CellMatrix) : List ℚ :=
  (unordPairs vars).filterMap fun p => symN M p.1 p.2

/-- Three variables where two of the three pairs carry sample sizes, for
the C6 witness. -/
def mC6 : CellMatrix := fun r =>
  if r = "a" then
    some (fun c =>
      if c = "a" then some diagCell
      else if c = "b" then some ⟨some (1 / 2), some 10⟩
      else if c = "c" then some ⟨some (1 / 2), some 20⟩ else none)
  else if r = "b" then
    some (fun c =>
      if c = "b" then some diagCell
      else if c = "a" then some ⟨some (1 / 2), some 10⟩
      else if c = "c" then some ⟨some (1 / 2), none⟩ else none)
  else if r = "c" then
    some (fun c =>
      if c = "c" then some diagCell
      else if c = "a" then some ⟨some (1 / 2), some 20⟩
      else if c = "b" then some ⟨some (1 / 2), none⟩ else none)
  else none

/-- A trivial token parser and a concrete row layout for the
`parseCombinedMatrixText` witness. -/
def c9tok : String → Bool → Cell := fun _ _ => ⟨none, none⟩

/-- Concrete split rows: header `["", "a", "b"]` and two data rows. -/
def c9rows : List (List String) := [["", "a", "b"], ["a", "1", "x"], ["b", "y", "1"]]

/-- The matrix parsed from `c9rows` (total by construction). -/
def c9M : CellMatrix :=
  match parseCombinedMatrixText c9tok c9rows with
  | .ok p => p.2
  | .error _ => emptyCellMatrix

/-- The matrices of the C10 witness: they agree on every cell the
estimator can read for the edge `a → b` and differ on the unread
`("b","a")` cell. -/
def mC10a : CellMatrix := twoVarSym "a" "b" ⟨some (1 / 2), some 10⟩

/-- Same as `mC10a` except at the unread `("b","a")` cell. -/
def mC10b : CellMatrix :=
  twoVarAsym "a" "b" ⟨some (1 / 2), some 10⟩ ⟨some (9 / 10), some 3⟩

/-- A two-variable matrix with `r(x,y) = 0.5` for the C3 witness. -/
def mC3 : CellMatrix := twoVarSym "x" "y" ⟨some (1 / 2), some 10⟩

/-- The estimation result on `mC3` with the single edge `x → y`. -/
def c3res : EstAcc :=
  ⟨[⟨"x", "y", some (1 / 2)⟩], [("y", some (1 / 4))], [("y", some (3 / 4))]⟩

/-- Four variables with `r(x1,x2) = 1` and the remaining correlations
chosen so that the parent submatrix `Rxx` is invertible: the C8
counterexample input. -/
def mC8 : CellMatrix := fun r =>
  if r = "x1" then
    some (fun c =>
      if c = "x1" then some diagCell
      else if c = "x2" then some ⟨some 1, some 10⟩
      else if c = "x3" then some ⟨some (1 / 2), some 10⟩
      else if c = "y" then some ⟨some (1 / 2), some 10⟩ else none)
  else if r = "x2" then
    some (fun c =>
      if c = "x2" then some diagCell
      else if c = "x1" then some ⟨some 1, some 10⟩
      else if c = "x3" then some ⟨some (9 / 10), some 10⟩
      else if c = "y" then some ⟨some (1 / 2), some 10⟩ else none)
  else if r = "x3" then
    some (fun c =>
      if c = "x3" then some diagCell
      else if c = "x1" then some ⟨some (1 / 2), some 10⟩
      else if c = "x2" then some ⟨some (9 / 10), some 10⟩
      else if c = "y" then some ⟨some (1 / 2), some 10⟩ else none)
  else if r = "y" then
    some (fun c =>
      if c = "y" then some diagCell
      else if c = "x1" then some ⟨some (1 / 2), some 10⟩
      else if c = "x2" then some ⟨some (1 / 2), some 10⟩
      else if c = "x3" then some ⟨some (1 / 2), some 10⟩ else none)
  else none

/-- The three edges into `y` of the C8 counterexample. -/
def c8edges : List Edge := [⟨"x1", "y"⟩, ⟨"x2", "y"⟩, ⟨"x3", "y"⟩]

/-- The two-parent configuration of the C8 witness. -/
def mC8w : CellMatrix := fun r =>
  if r = "x1" then
    some (fun c =>
      if c = "x1" then some diagCell
      else if c = "x2" then some ⟨some 1, some 10⟩
      else if c = "y" then some ⟨some (1 / 2), some 10⟩ else none)
  else if r = "x2" then
    some (fun c =>
      if c = "x2" then some diagCell
      else if c = "x1" then some ⟨some 1, some 10⟩
      else if c = "y" then some ⟨some (1 / 2), some 10⟩ else none)
  else if r = "y" then
    some (fun c =>
      if c = "y" then some diagCell
      else if c = "x1" then some ⟨some (1 / 2), some 10⟩
      else if c = "x2" then some ⟨some (1 / 2), some 10⟩ else none)
  else none

/-- The two edges into `y` of the C8 witness. -/
def c8wedges : List Edge := [⟨"x1", "y"⟩, ⟨"x2", "y"⟩]

/-- The estimation outcome of the C4 witness run on `mC3` with the single
edge `x → y` and the zero square-root/logarithm stubs. -/
def c4res : EstResult :=
  ⟨[⟨"x", "y", some (1 / 2)⟩], [("y", some (1 / 4))], [("y", some (3 / 4))],
   ⟨some 10, .harmonic, some 0, 1, 3, 2, 1,
    some (some 0), some (some 0), some (some 1), some (some 0)⟩⟩

/-- The stored state of the C4 witness run. -/
def c4out : RunOutcome := ⟨[], [], some c4res⟩

/-! ## Theorems -/

theorem qabs_eq_abs (q : ℚ) : qabs q = |q| := by
  unfold qabs
  rcases lt_or_le q 0 with h | h
  · rw [if_pos h, abs_of_neg h]
  · rw [if_neg (not_lt.mpr h), abs_of_nonneg h]

theorem qmax_eq_max (a b : ℚ) : qmax a b = max a b := by
  unfold qmax
  rcases lt_or_le a b with h | h
  · rw [if_pos h, max_eq_right h.le]
  · rw [if_neg (not_lt.mpr h), max_eq_left h]

theorem qmin_eq_min (a b : ℚ) : qmin a b = min a b := by
  unfold qmin
  rcases lt_or_le a b with h | h
  · rw [if_pos h, min_eq_left h.le]
  · rw [if_neg (not_lt.mpr h), min_eq_right h]

@[simp]
theorem cellAt_updCell (M : CellMatrix) (a b : VarName) (x : Cell) (v w : VarName) :
    cellAt (updCell M a b x) v w = if v = a ∧ w = b then some x else cellAt M v w := by
  unfold cellAt updCell
  by_cases hv : v = a
  · subst hv
    by_cases hw : w = b
    · simp [hw]
    · simp only [hw, if_true, if_false, and_false, and_true, ite_false]
      cases h : M v <;> simp [h, Option.getD, hw]
  · simp [hv]

theorem indexPairs_zero : indexPairs 0 = [] := by simp [indexPairs]

theorem mem_drop_range {n i j : Nat} : j ∈ (List.range n).drop i ↔ i ≤ j ∧ j < n := by
  constructor
  · intro h
    rcases List.mem_iff_getElem.mp h with ⟨k, hk, hkj⟩
    rw [List.length_drop, List.length_range] at hk
    rw [List.getElem_drop, List.getElem_range] at hkj
    omega
  · rintro ⟨h1, h2⟩
    apply List.mem_iff_getElem.mpr
    refine ⟨j - i, ?_, ?_⟩
    · rw [List.length_drop, List.length_range]; omega
    · rw [List.getElem_drop, List.getElem_range]; omega

theorem mem_indexPairs {n i j : Nat} : (i, j) ∈ indexPairs n ↔ i < j ∧ j < n := by
  unfold indexPairs
  simp only [List.mem_flatMap, List.mem_map, List.mem_range, Prod.mk.injEq]
  constructor
  · rintro ⟨i', hi', j', hj', h1, h2⟩
    subst h1; subst h2
    rw [mem_drop_range] at hj'
    omega
  · rintro ⟨hij, hjn⟩
    exact ⟨i, by omega, ⟨j, mem_drop_range.mpr (by omega), rfl, rfl⟩⟩

theorem mapM_eq_some_map {α β : Type} (f : α → Option β) (g : α → β) :
    ∀ (l : List α), (∀ x ∈ l, f x = some (g x)) → l.mapM f = some (l.map g)
  | [], _ => rfl
  | x :: xs, h => by
    have hx : f x = some (g x) := h x (by simp)
    have hxs := mapM_eq_some_map f g xs (fun y hy => h y (by simp [hy]))
    simp only [List.mapM_cons, hx, hxs, List.map_cons]
    rfl

theorem pairCheck_eq_pairFindings {M : CellMatrix} {a b : VarName}
    (h : (cellAt M a b).isSome) : pairCheck M a b = some (pairFindings M a b) := by
  unfold pairCheck pairFindings
  rcases hc : cellAt M a b with _ | cell
  · rw [hc] at h; simp at h
  · simp only [hc]
    rfl

theorem validateCellMatrix_of_present {vars : List VarName} {M : CellMatrix}
    (hrow : ∀ r ∈ vars, (M r).isSome)
    (hcell : ∀ p ∈ indexPairs vars.length,
      (cellAt M (vars.getD p.1 "") (vars.getD p.2 "")).isSome) :
    validateCellMatrix vars M =
      some ⟨(validateErrors vars M).isEmpty, validateErrors vars M, validateWarnings vars M⟩ := by
  unfold validateCellMatrix
  have hmiss : (vars.filter fun r => (M r).isNone) = [] := by
    apply List.filter_eq_nil_iff.mpr
    intro r hr
    have := hrow r hr
    simp [Option.isNone, Option.isSome] at this ⊢
    rcases h : M r with _ | _
    · rw [h] at this; simp at this
    · simp
  rw [hmiss]
  simp only [List.map_nil, List.isEmpty_nil, if_true]
  rw [mapM_eq_some_map _ (fun p => pairFindings M (vars.getD p.1 "") (vars.getD p.2 ""))
    _ (fun p hp => pairCheck_eq_pairFindings (hcell p hp))]
  simp only [validateErrors, validateWarnings, List.map_map]
  rfl

theorem mem_validateErrors {vars : List VarName} {M : CellMatrix} {f : Finding} :
    f ∈ validateErrors vars M ↔
      (∃ r ∈ vars, ∃ c ∈ vars, f ∈ checkCell M r c) ∨
      (∃ i j, (i, j) ∈ indexPairs vars.length ∧
        f ∈ (pairFindings M (vars.getD i "") (vars.getD j "")).1) := by
  unfold validateErrors
  rw [List.mem_append]
  apply or_congr
  · simp
  · rw [List.mem_flatten]
    constructor
    · rintro ⟨l, hl, hf⟩
      rw [List.mem_map] at hl
      rcases hl with ⟨p, hp, rfl⟩
      exact ⟨p.1, p.2, hp, hf⟩
    · rintro ⟨i, j, hp, hf⟩
      exact ⟨_, List.mem_map.mpr ⟨(i, j), hp, rfl⟩, hf⟩

theorem mem_validateWarnings {vars : List VarName} {M : CellMatrix} {f : Finding} :
    f ∈ validateWarnings vars M ↔
      ∃ i j, (i, j) ∈ indexPairs vars.length ∧
        f ∈ (pairFindings M (vars.getD i "") (vars.getD j "")).2 := by
  unfold validateWarnings
  rw [List.mem_flatten]
  constructor
  · rintro ⟨l, hl, hf⟩
    rw [List.mem_map] at hl
    rcases hl with ⟨p, hp, rfl⟩
    exact ⟨p.1, p.2, hp, hf⟩
  · rintro ⟨i, j, hp, hf⟩
    exact ⟨_, List.mem_map.mpr ⟨(i, j), hp, rfl⟩, hf⟩

theorem checkCell_outOfBounds_sound {M : CellMatrix} {r' c' r c : VarName}
    (h : Finding.outOfBounds r c ∈ checkCell M r' c') :
    r' = r ∧ c' = c ∧ ∃ rr, getCellR M r' c' = some rr ∧ (rr < -1 ∨ 1 < rr) := by
  rcases hc : cellAt M r' c' with _ | cell <;>
    simp only [checkCell, hc] at h
  · simp at h
  · rcases hr : cell.r with _ | rr <;>
      rcases hn : cell.n with _ | nn <;>
      simp only [hr, hn, List.mem_append, List.mem_singleton] at h <;>
      split_ifs at h <;> simp_all [getCellR, cellAt]

theorem checkCell_outOfBounds_complete {M : CellMatrix} {r c : VarName} {rr : ℚ}
    (hrr : getCellR M r c = some rr) (hcond : rr < -1 ∨ 1 < rr) :
    Finding.outOfBounds r c ∈ checkCell M r c := by
  unfold getCellR at hrr
  rcases hc : cellAt M r c with _ | cell <;> rw [hc] at hrr
  · rw [Option.none_bind] at hrr
    cases hrr
  · rw [Option.some_bind] at hrr
    simp only [checkCell, hc, hrr, if_pos hcond]
    simp

theorem checkCell_badDiag_sound {M : CellMatrix} {r' c' r c : VarName}
    (h : Finding.badDiag r c ∈ checkCell M r' c') :
    r' = r ∧ c' = c ∧ r = c ∧ ∃ rr, getCellR M r' c' = some rr ∧ eps6 < qabs (rr - 1) := by
  rcases hc : cellAt M r' c' with _ | cell <;>
    simp only [checkCell, hc] at h
  · simp at h
  · rcases hr : cell.r with _ | rr <;>
      rcases hn : cell.n with _ | nn <;>
      simp only [hr, hn, List.mem_append, List.mem_singleton] at h <;>
      split_ifs at h <;> simp_all [getCellR, cellAt]

theorem checkCell_badDiag_complete {M : CellMatrix} {v : VarName} {rr : ℚ}
    (hrr : getCellR M v v = some rr) (hcond : eps6 < qabs (rr - 1)) :
    Finding.badDiag v v ∈ checkCell M v v := by
  unfold getCellR at hrr
  rcases hc : cellAt M v v with _ | cell <;> rw [hc] at hrr
  · rw [Option.none_bind] at hrr
    cases hrr
  · rw [Option.some_bind] at hrr
    simp only [checkCell, hc, hrr]
    simp [hcond]

theorem checkCell_invalidR_sound {M : CellMatrix} {r' c' r c : VarName}
    (h : Finding.invalidR r c ∈ checkCell M r' c') :
    r' = r ∧ c' = c ∧ ∃ cell, cellAt M r' c' = some cell ∧ cell.r = none := by
  rcases hc : cellAt M r' c' with _ | cell <;>
    simp only [checkCell, hc] at h
  · simp at h
  · rcases hr : cell.r with _ | rr <;>
      rcases hn : cell.n with _ | nn <;>
      simp only [hr, hn, List.mem_append, List.mem_singleton] at h <;>
      split_ifs at h <;> simp_all

theorem checkCell_invalidR_complete {M : CellMatrix} {r c : VarName} {cell : Cell}
    (hc : cellAt M r c = some cell) (hr : cell.r = none) :
    Finding.invalidR r c ∈ checkCell M r c := by
  simp only [checkCell, hc, hr]
  simp

theorem checkCell_missingCell_sound {M : CellMatrix} {r' c' r c : VarName}
    (h : Finding.missingCell r c ∈ checkCell M r' c') :
    r' = r ∧ c' = c ∧ cellAt M r' c' = none := by
  rcases hc : cellAt M r' c' with _ | cell <;>
    simp only [checkCell, hc] at h
  · simp at h
    exact ⟨h.1.symm, h.2.symm, rfl⟩
  · rcases hr : cell.r with _ | rr <;>
      rcases hn : cell.n with _ | nn <;>
      simp only [hr, hn, List.mem_append, List.mem_singleton] at h <;>
      split_ifs at h <;> simp_all

theorem checkCell_missingN_sound {M : CellMatrix} {r' c' r c : VarName}
    (h : Finding.missingN r c ∈ checkCell M r' c') :
    r' = r ∧ c' = c ∧ r ≠ c ∧ ∃ cell, cellAt M r' c' = some cell ∧ cell.n = none := by
  rcases hc : cellAt M r' c' with _ | cell <;>
    simp only [checkCell, hc] at h
  · simp at h
  · rcases hr : cell.r with _ | rr <;>
      rcases hn : cell.n with _ | nn <;>
      simp only [hr, hn, List.mem_append, List.mem_singleton] at h <;>
      split_ifs at h <;> simp_all

theorem checkCell_missingN_complete {M : CellMatrix} {r c : VarName} {cell : Cell}
    (hc : cellAt M r c = some cell) (hne : r ≠ c) (hn : cell.n = none) :
    Finding.missingN r c ∈ checkCell M r c := by
  rcases hr : cell.r with _ | rr <;>
    simp [checkCell, hc, hr, hn, hne]

theorem checkCell_smallN_sound {M : CellMatrix} {r' c' r c : VarName}
    (h : Finding.smallN r c ∈ checkCell M r' c') :
    r' = r ∧ c' = c ∧ r ≠ c ∧ ∃ nn, getCellN M r' c' = some nn ∧ nn ≤ 2 := by
  rcases hc : cellAt M r' c' with _ | cell <;>
    simp only [checkCell, hc] at h
  · simp at h
  · rcases hr : cell.r with _ | rr <;>
      rcases hn : cell.n with _ | nn <;>
      simp only [hr, hn, List.mem_append, List.mem_singleton] at h <;>
      split_ifs at h <;> simp_all [getCellN, cellAt]

theorem checkCell_smallN_complete {M : CellMatrix} {r c : VarName} {nn : ℚ}
    (hn : getCellN M r c = some nn) (hne : r ≠ c) (hcond : nn ≤ 2) :
    Finding.smallN r c ∈ checkCell M r c := by
  unfold getCellN at hn
  rcases hc : cellAt M r c with _ | cell <;> rw [hc] at hn
  · rw [Option.none_bind] at hn
    cases hn
  · rw [Option.some_bind] at hn
    rcases hr : cell.r with _ | rr <;>
      simp [checkCell, hc, hr, hn, hne, if_pos hcond]

theorem pairFindings_asymR_sound {M : CellMatrix} {a' b' a b : VarName}
    (h : Finding.asymR a b ∈ (pairFindings M a' b').1) :
    a' = a ∧ b' = b ∧ ∃ q1 q2, getCellR M a b = some q1 ∧ getCellR M b a = some q2 ∧
      eps6 < qabs (q1 - q2) := by
  unfold pairFindings at h
  simp only at h
  rcases h1 : (cellAt M a' b').bind Cell.r with _ | q1 <;>
    rcases h2 : (cellAt M b' a').bind Cell.r with _ | q2 <;>
    rw [h1, h2] at h <;>
    (try simp at h) <;>
    (first | (split_ifs at h <;> simp_all [getCellR]) | simp_all [getCellR])

theorem pairFindings_asymR_complete {M : CellMatrix} {a b : VarName} {q1 q2 : ℚ}
    (h1 : getCellR M a b = some q1) (h2 : getCellR M b a = some q2)
    (hcond : eps6 < qabs (q1 - q2)) :
    Finding.asymR a b ∈ (pairFindings M a b).1 := by
  unfold getCellR at h1 h2
  unfold pairFindings
  simp only [h1, h2, if_pos hcond]
  simp

theorem pairFindings_highR_sound {M : CellMatrix} {a' b' a b : VarName}
    (h : Finding.highR a b ∈ (pairFindings M a' b').2) :
    a' = a ∧ b' = b ∧ ∃ rr, getCellR M a b = some rr ∧ nearOne ≤ qabs rr := by
  unfold pairFindings at h
  simp only [List.mem_append] at h
  rcases h with h | h
  · rcases h1 : (cellAt M a' b').bind Cell.n with _ | n1 <;>
      rcases h2 : (cellAt M b' a').bind Cell.n with _ | n2 <;>
      rw [h1, h2] at h <;>
      (try simp at h) <;>
      (first | (split_ifs at h <;> simp_all [getCellR]) | simp_all [getCellR])
  · rcases h1 : (cellAt M a' b').bind Cell.r with _ | rr <;>
      rw [h1] at h <;>
      (try simp at h) <;>
      (first | (split_ifs at h <;> simp_all [getCellR]) | simp_all [getCellR])

theorem pairFindings_highR_complete {M : CellMatrix} {a b : VarName} {rr : ℚ}
    (h1 : getCellR M a b = some rr) (hcond : nearOne ≤ qabs rr) :
    Finding.highR a b ∈ (pairFindings M a b).2 := by
  unfold getCellR at h1
  unfold pairFindings
  simp only [h1, if_pos hcond, List.mem_append]
  right
  simp

theorem pairFindings_asymN_sound {M : CellMatrix} {a' b' a b : VarName}
    (h : Finding.asymN a b ∈ (pairFindings M a' b').2) :
    a' = a ∧ b' = b ∧ ∃ n1 n2, getCellN M a b = some n1 ∧ getCellN M b a = some n2 ∧
      eps6 < qabs (n1 - n2) := by
  unfold pairFindings at h
  simp only [List.mem_append] at h
  rcases h with h | h
  · rcases h1 : (cellAt M a' b').bind Cell.n with _ | n1 <;>
      rcases h2 : (cellAt M b' a').bind Cell.n with _ | n2 <;>
      rw [h1, h2] at h <;>
      (try simp at h) <;>
      (first | (split_ifs at h <;> simp_all [getCellN]) | simp_all [getCellN])
  · rcases h1 : (cellAt M a' b').bind Cell.r with _ | rr <;>
      rw [h1] at h <;>
      (try simp at h) <;>
      (first | (split_ifs at h <;> simp_all) | simp_all)

theorem pairFindings_fst_shape {M : CellMatrix} {a b : VarName} {f : Finding}
    (h : f ∈ (pairFindings M a b).1) : f = Finding.asymR a b := by
  unfold pairFindings at h
  simp only at h
  rcases h1 : (cellAt M a b).bind Cell.r with _ | q1 <;>
    rcases h2 : (cellAt M b a).bind Cell.r with _ | q2 <;>
    rw [h1, h2] at h <;>
    (try simp at h) <;>
    (first | (split_ifs at h <;> simp_all) | simp_all)

theorem pairFindings_snd_shape {M : CellMatrix} {a b : VarName} {f : Finding}
    (h : f ∈ (pairFindings M a b).2) :
    f = Finding.asymN a b ∨ f = Finding.highR a b := by
  unfold pairFindings at h
  simp only [List.mem_append] at h
  rcases h with h | h
  · left
    rcases h1 : (cellAt M a b).bind Cell.n with _ | n1 <;>
      rcases h2 : (cellAt M b a).bind Cell.n with _ | n2 <;>
      rw [h1, h2] at h <;>
      (try simp at h) <;>
      (first | (split_ifs at h <;> simp_all) | simp_all)
  · right
    rcases h1 : (cellAt M a b).bind Cell.r with _ | rr <;>
      rw [h1] at h <;>
      (try simp at h) <;>
      (first | (split_ifs at h <;> simp_all) | simp_all)

/-- C2.  The claim says an off-diagonal `|r| ≥ 1` is a validation error,
so `r = 1` should force `ok = false`; on the matrix `mC2`, whose
off-diagonal correlation is exactly `1` (with valid `n = 10`),
`validateCellMatrix` instead returns `ok = true` with no errors and only
the near-unity warning. -/
theorem c2_exact_one_passes_validation :
    getCellR mC2 "a" "b" = some 1 ∧ getCellR mC2 "b" "a" = some 1 ∧
      validateCellMatrix ["a", "b"] mC2 = some c2res ∧ c2res.ok = true ∧
      c2res.errors = [] := by
  refine ⟨by with_unfolding_all decide, by with_unfolding_all decide, ?_, rfl, rfl⟩
  with_unfolding_all decide

/-- C2 (amended).  For a finite off-diagonal correlation `rr` at `(r, c)`,
`validateCellMatrix` reports the out-of-bounds error exactly when `rr`
lies strictly outside `[-1, 1]` (`rr < -1 ∨ 1 < rr`), so `rr = ±1` is not
an error; a near-unity warning `|rr| ≥ 0.999999` is reported instead for
the pair, and `ok` is true exactly when the error list is empty. -/
theorem c2_amended_bounds_check (vars : List VarName) (M : CellMatrix)
    (res : ValidationResult) (r c : VarName) (rr : ℚ) (i j : Nat)
    (hrow : ∀ v ∈ vars, (M v).isSome)
    (hpair : ∀ p ∈ indexPairs vars.length,
      (cellAt M (vars.getD p.1 "") (vars.getD p.2 "")).isSome)
    (hres : validateCellMatrix vars M = some res)
    (hr : r ∈ vars) (hc : c ∈ vars)
    (hij : i < j) (hjn : j < vars.length)
    (hiv : vars.getD i "" = r) (hjv : vars.getD j "" = c)
    (hrr : getCellR M r c = some rr) :
    (Finding.outOfBounds r c ∈ res.errors ↔ (rr < -1 ∨ 1 < rr)) ∧
    (Finding.highR r c ∈ res.warnings ↔ nearOne ≤ |rr|) ∧
    (res.ok = true ↔ res.errors = []) := by
  rw [validateCellMatrix_of_present hrow hpair] at hres
  rcases Option.some.injEq .. ▸ hres with rfl
  refine ⟨?_, ?_, ?_⟩
  · constructor
    · intro h
      rcases mem_validateErrors.mp h with ⟨r', _, c', _, hcc⟩ | ⟨i', j', _, hpf⟩
      · rcases checkCell_outOfBounds_sound hcc with ⟨rfl, rfl, rr', hrr', hcond⟩
        rw [hrr] at hrr'
        cases hrr'
        exact hcond
      · exact absurd (pairFindings_fst_shape hpf) (by simp)
    · intro hcond
      exact mem_validateErrors.mpr (Or.inl ⟨r, hr, c, hc, checkCell_outOfBounds_complete hrr hcond⟩)
  · rw [← qabs_eq_abs]
    constructor
    · intro h
      rcases mem_validateWarnings.mp h with ⟨i', j', _, hpf⟩
      rcases pairFindings_snd_shape hpf with hshape | hshape
      · cases hshape
      · rcases pairFindings_highR_sound hpf with ⟨_, _, rr', hrr', hcond⟩
        rw [hrr] at hrr'
        cases hrr'
        exact hcond
    · intro hcond
      apply mem_validateWarnings.mpr
      refine ⟨i, j, mem_indexPairs.mpr ⟨hij, hjn⟩, ?_⟩
      rw [hiv, hjv]
      exact pairFindings_highR_complete hrr hcond
  · simp [List.isEmpty_iff]

/-- Witness for C2's amended theorem at the concrete matrix `mC2`. -/
theorem c2_amended_bounds_check_witness :
    (Finding.outOfBounds "a" "b" ∈ c2res.errors ↔ ((1 : ℚ) < -1 ∨ (1 : ℚ) < 1)) ∧
    (Finding.highR "a" "b" ∈ c2res.warnings ↔ nearOne ≤ |(1 : ℚ)|) ∧
    (c2res.ok = true ↔ c2res.errors = []) :=
  c2_amended_bounds_check ["a", "b"] mC2 c2res "a" "b" 1 0 1
    (by with_unfolding_all decide) (by with_unfolding_all decide)
    (by with_unfolding_all decide) (by decide) (by decide) (by decide) (by decide)
    (by decide) (by decide) (by with_unfolding_all decide)

/-- C7.  The claim says a missing row is fatal only to that row's checks
and every other finding is still reported; on `mC7`, where row `"b"` is
missing and the diagonal of the present row `"a"` holds the out-of-bounds
value `5`, validation returns only the missing-row error: neither the
bad-diagonal nor the out-of-bounds finding for `("a","a")` appears,
because the missing row makes `validateCellMatrix` return early before
any cell check runs. -/
theorem c7_missing_row_short_circuits :
    getCellR mC7 "a" "a" = some 5 ∧
      validateCellMatrix ["a", "b"] mC7 = some c7res ∧
      Finding.badDiag "a" "a" ∉ c7res.errors ∧
      Finding.outOfBounds "a" "a" ∉ c7res.errors := by
  refine ⟨by with_unfolding_all decide, ?_, by decide, by decide⟩
  with_unfolding_all decide

/-- C7 (amended).  Missing rows are fatal to the whole validation: if any
declared variable lacks a row, the result is exactly the missing-row
errors (one per missing variable) with no warnings, and no other check
runs.  When every row and cell is present, validation accumulates all
findings: each cell-level condition (non-finite `r`, out-of-bounds `r`,
bad diagonal, missing `n`, too-small `n`) and each pairwise `r`-asymmetry
contributes its finding to the returned error list. -/
theorem c7_amended_accumulation :
    (∀ (vars : List VarName) (M : CellMatrix), (∃ v ∈ vars, (M v).isNone) →
      validateCellMatrix vars M =
        some ⟨false, (vars.filter fun v => (M v).isNone).map Finding.missingRow, []⟩) ∧
    (∀ (vars : List VarName) (M : CellMatrix) (res : ValidationResult),
      cellsPresent vars M →
      validateCellMatrix vars M = some res →
      (∀ r ∈ vars, ∀ c ∈ vars, ∀ cell, cellAt M r c = some cell →
        (cell.r = none → Finding.invalidR r c ∈ res.errors) ∧
        (∀ rr, cell.r = some rr → (rr < -1 ∨ 1 < rr) → Finding.outOfBounds r c ∈ res.errors) ∧
        (∀ rr, r = c → cell.r = some rr → eps6 < |rr - 1| → Finding.badDiag r c ∈ res.errors) ∧
        (r ≠ c → cell.n = none → Finding.missingN r c ∈ res.errors) ∧
        (∀ nn, r ≠ c → cell.n = some nn → nn ≤ 2 → Finding.smallN r c ∈ res.errors)) ∧
      (∀ i j q1 q2, i < j → j < vars.length →
        getCellR M (vars.getD i "") (vars.getD j "") = some q1 →
        getCellR M (vars.getD j "") (vars.getD i "") = some q2 →
        eps6 < |q1 - q2| →
        Finding.asymR (vars.getD i "") (vars.getD j "") ∈ res.errors)) := by
  constructor
  · rintro vars M ⟨v, hv, hnone⟩
    have hne : ((vars.filter fun r => (M r).isNone).map Finding.missingRow).isEmpty = false := by
      rcases h : (vars.filter fun r => (M r).isNone) with _ | ⟨x, xs⟩
      · exact absurd (List.mem_filter.mpr ⟨hv, hnone⟩) (by rw [h]; simp)
      · simp [h]
    simp only [validateCellMatrix, hne]
    simp
  · intro vars M res hpres hres
    have hrow : ∀ r ∈ vars, (M r).isSome := by
      intro r hr
      have := hpres r hr r hr
      unfold cellAt at this
      rcases h : M r with _ | _
      · rw [h] at this; simp at this
      · simp
    have hpair : ∀ p ∈ indexPairs vars.length,
        (cellAt M (vars.getD p.1 "") (vars.getD p.2 "")).isSome := by
      rintro ⟨i, j⟩ hp
      rcases mem_indexPairs.mp hp with ⟨hij, hjn⟩
      have hi : vars.getD i "" ∈ vars := by
        rw [List.getD_eq_getElem vars "" (by omega)]
        exact List.getElem_mem _
      have hj : vars.getD j "" ∈ vars := by
        rw [List.getD_eq_getElem vars "" (by omega)]
        exact List.getElem_mem _
      exact hpres _ hi _ hj
    rw [validateCellMatrix_of_present hrow hpair] at hres
    rcases Option.some.injEq .. ▸ hres with rfl
    constructor
    · intro r hr c hc cell hcell
      refine ⟨?_, ?_, ?_, ?_, ?_⟩
      · intro hrnone
        exact mem_validateErrors.mpr
          (Or.inl ⟨r, hr, c, hc, checkCell_invalidR_complete hcell hrnone⟩)
      · intro rr hrsome hcond
        have : getCellR M r c = some rr := by unfold getCellR; rw [hcell]; simpa using hrsome
        exact mem_validateErrors.mpr
          (Or.inl ⟨r, hr, c, hc, checkCell_outOfBounds_complete this hcond⟩)
      · intro rr hdiag hrsome hcond
        subst hdiag
        have : getCellR M r r = some rr := by unfold getCellR; rw [hcell]; simpa using hrsome
        rw [← qabs_eq_abs] at hcond
        exact mem_validateErrors.mpr
          (Or.inl ⟨r, hr, r, hr, checkCell_badDiag_complete this hcond⟩)
      · intro hne hnnone
        exact mem_validateErrors.mpr
          (Or.inl ⟨r, hr, c, hc, checkCell_missingN_complete hcell hne hnnone⟩)
      · intro nn hne hnsome hcond
        have : getCellN M r c = some nn := by unfold getCellN; rw [hcell]; simpa using hnsome
        exact mem_validateErrors.mpr
          (Or.inl ⟨r, hr, c, hc, checkCell_smallN_complete this hne hcond⟩)
    · intro i j q1 q2 hij hjn h1 h2 hcond
      rw [← qabs_eq_abs] at hcond
      exact mem_validateErrors.mpr
        (Or.inr ⟨i, j, mem_indexPairs.mpr ⟨hij, hjn⟩, pairFindings_asymR_complete h1 h2 hcond⟩)

/-- Witness for C7's amended theorem: the missing-row branch at `mC7` and
the accumulation branch at `mC7w` (both the out-of-bounds and the
too-small-`n` findings of the same cell are in the error list). -/
theorem c7_amended_accumulation_witness :
    validateCellMatrix ["a", "b"] mC7 =
      some ⟨false, [Finding.missingRow "b"], []⟩ ∧
    Finding.outOfBounds "a" "b" ∈ c7wres.errors ∧
    Finding.smallN "a" "b" ∈ c7wres.errors := by
  refine ⟨?_, ?_, ?_⟩
  · have := c7_amended_accumulation.1 ["a", "b"] mC7 ⟨"b", by decide, by with_unfolding_all decide⟩
    simpa using this
  · exact ((c7_amended_accumulation.2 ["a", "b"] mC7w c7wres
      (by unfold cellsPresent; with_unfolding_all decide) (by with_unfolding_all decide)).1
      "a" (by decide) "b" (by decide) ⟨some (3 / 2), some 1⟩ (by with_unfolding_all decide)).2.1
      (3 / 2) rfl (by right; norm_num)
  · exact (((c7_amended_accumulation.2 ["a", "b"] mC7w c7wres
      (by unfold cellsPresent; with_unfolding_all decide) (by with_unfolding_all decide)).1
      "a" (by decide) "b" (by decide) ⟨some (3 / 2), some 1⟩ (by with_unfolding_all decide)).2.2.2.2)
      1 (by decide) rfl (by norm_num)

theorem checkCell_no_asymR {M : CellMatrix} {r c a b : VarName} :
    Finding.asymR a b ∉ checkCell M r c := by
  intro h
  rcases hc : cellAt M r c with _ | cell <;>
    simp only [checkCell, hc] at h
  · simp at h
  · rcases hr : cell.r with _ | rr <;>
      rcases hn : cell.n with _ | nn <;>
      simp only [hr, hn, List.mem_append, List.mem_singleton] at h <;>
      (first | (split_ifs at h <;> simp_all) | simp_all)

theorem pairFindings_fst_eq {M : CellMatrix} {a b : VarName} {q1 q2 : ℚ}
    (h1 : getCellR M a b = some q1) (h2 : getCellR M b a = some q2) :
    (pairFindings M a b).1 =
      if eps6 < qabs (q1 - q2) then [Finding.asymR a b] else [] := by
  unfold getCellR at h1 h2
  unfold pairFindings
  simp only [h1, h2]

theorem indexPairs_nodup (n : Nat) : (indexPairs n).Nodup := by
  unfold indexPairs
  rw [List.nodup_flatMap]
  constructor
  · intro i _
    refine List.Nodup.map ?_ ((List.nodup_range n).sublist (List.drop_sublist _ _))
    intro x y hxy
    simpa using hxy
  · apply List.Pairwise.imp ?_ (List.nodup_range n)
    intro i j hne
    simp only [Function.onFun, List.disjoint_left]
    rintro ⟨x, y⟩ hx hy
    rcases List.mem_map.mp hx with ⟨jx, _, hjx⟩
    rcases List.mem_map.mp hy with ⟨jy, _, hjy⟩
    cases hjx
    cases hjy
    exact hne rfl

theorem nodup_getD_inj {vars : List VarName} (hnd : vars.Nodup) {i j : Nat}
    (hi : i < vars.length) (hj : j < vars.length)
    (h : vars.getD i "" = vars.getD j "") : i = j := by
  rw [List.getD_eq_getElem vars "" hi, List.getD_eq_getElem vars "" hj] at h
  exact (List.Nodup.getElem_inj_iff hnd).mp h

theorem sum_indicator_zero {α : Type} [DecidableEq α] (a : α) :
    ∀ (l : List α), a ∉ l → (l.map fun x => if x = a then (1 : Nat) else 0).sum = 0
  | [], _ => rfl
  | x :: xs, h => by
    simp only [List.mem_cons, not_or] at h
    simp only [List.map_cons, List.sum_cons]
    rw [if_neg (fun hx => h.1 hx.symm), sum_indicator_zero a xs h.2]

theorem sum_indicator_one {α : Type} [DecidableEq α] (a : α) :
    ∀ (l : List α), l.Nodup → a ∈ l →
      (l.map fun x => if x = a then (1 : Nat) else 0).sum = 1
  | [], _, ha => by cases ha
  | x :: xs, hnd, ha => by
    rw [List.nodup_cons] at hnd
    simp only [List.map_cons, List.sum_cons]
    rcases List.mem_cons.mp ha with rfl | ha'
    · rw [if_pos rfl, sum_indicator_zero a xs hnd.1]
    · rw [if_neg (by intro hx; subst hx; exact hnd.1 ha'),
        sum_indicator_one a xs hnd.2 ha']

theorem count_validateErrors_asymR {vars : List VarName} {M : CellMatrix}
    {i j : Nat} {a b : VarName} {q1 q2 : ℚ}
    (hnd : vars.Nodup) (hij : i < j) (hjn : j < vars.length)
    (hiv : vars.getD i "" = a) (hjv : vars.getD j "" = b)
    (h1 : getCellR M a b = some q1) (h2 : getCellR M b a = some q2)
    (hcond : eps6 < qabs (q1 - q2)) :
    (validateErrors vars M).count (Finding.asymR a b) = 1 := by
  unfold validateErrors
  rw [List.count_append]
  have hcell0 : ((vars.flatMap fun r => vars.flatMap fun c => checkCell M r c).count
      (Finding.asymR a b)) = 0 := by
    apply List.count_eq_zero.mpr
    intro h
    rcases List.mem_flatMap.mp h with ⟨r, _, hin⟩
    rcases List.mem_flatMap.mp hin with ⟨c, _, hin2⟩
    exact checkCell_no_asymR hin2
  rw [hcell0, List.count_flatten, List.map_map]
  have hmap : ∀ p ∈ indexPairs vars.length,
      (List.count (Finding.asymR a b) ∘
        fun p => (pairFindings M (vars.getD p.1 "") (vars.getD p.2 "")).1) p =
      (fun p => if p = (i, j) then (1 : Nat) else 0) p := by
    rintro ⟨i', j'⟩ hp
    rcases mem_indexPairs.mp hp with ⟨hij', hjn'⟩
    simp only [Function.comp_apply]
    by_cases hpe : ((i' : Nat), (j' : Nat)) = (i, j)
    · rcases Prod.mk.injEq .. ▸ hpe with ⟨rfl, rfl⟩
      rw [if_pos rfl]
      rw [hiv, hjv, pairFindings_fst_eq h1 h2, if_pos hcond]
      simp
    · rw [if_neg hpe]
      apply List.count_eq_zero.mpr
      intro hmem
      have hsh := pairFindings_fst_shape hmem
      have hip : vars.getD i' "" = a ∧ vars.getD j' "" = b := by
        cases hsh
        exact ⟨rfl, rfl⟩
      apply hpe
      have hii : i' = i :=
        nodup_getD_inj hnd (by omega) (by omega) (hip.1.trans hiv.symm)
      have hjj : j' = j :=
        nodup_getD_inj hnd (by omega) (by omega) (hip.2.trans hjv.symm)
      rw [hii, hjj]
  rw [List.map_congr_left hmap]
  rw [sum_indicator_one _ _ (indexPairs_nodup _) (mem_indexPairs.mpr ⟨hij, hjn⟩)]

theorem getD_r_eq_getCellR (M : CellMatrix) (a b : VarName) :
    ((cellAt M a b).getD ⟨none, none⟩).r = getCellR M a b := by
  unfold getCellR
  rcases h : cellAt M a b with _ | cell <;> simp [h]

theorem getD_n_eq_getCellN (M : CellMatrix) (a b : VarName) :
    ((cellAt M a b).getD ⟨none, none⟩).n = getCellN M a b := by
  unfold getCellN
  rcases h : cellAt M a b with _ | cell <;> simp [h]

theorem rPairRes_warn_shape (x y : Fl) (a b : VarName) :
    ∀ f ∈ (rPairRes x y a b).2, f = Finding.rMismatchAvg a b := by
  intro f hf
  rcases x with _ | q1 <;> rcases y with _ | q2 <;>
    simp only [rPairRes] at hf <;>
    (first | (split_ifs at hf <;> simp_all) | simp_all)

theorem nPairRes_warn_shape (x y : Fl) (a b : VarName) :
    ∀ f ∈ (nPairRes x y a b).2, f = Finding.nMismatchMin a b := by
  intro f hf
  rcases x with _ | n1 <;> rcases y with _ | n2 <;>
    simp only [nPairRes] at hf <;>
    (first | (split_ifs at hf <;> simp_all) | simp_all)

theorem reconcilePair_cellAt_other (st : CellMatrix × List Finding) (a b x y : VarName)
    (h1 : ¬(x = a ∧ y = b)) (h2 : ¬(x = b ∧ y = a)) :
    cellAt (reconcilePair st a b).1 x y = cellAt st.1 x y := by
  unfold reconcilePair
  simp only [cellAt_updCell, if_neg h1, if_neg h2]

theorem reconcilePair_count_other (st : CellMatrix × List Finding) (a' b' a b : VarName)
    (hne : ¬(a' = a ∧ b' = b)) :
    ((reconcilePair st a' b').2).count (Finding.rMismatchAvg a b) =
      st.2.count (Finding.rMismatchAvg a b) := by
  unfold reconcilePair
  simp only [← List.append_assoc, List.count_append]
  have hr0 : (rPairRes ((cellAt st.1 a' b').getD ⟨none, none⟩).r
      ((cellAt st.1 b' a').getD ⟨none, none⟩).r a' b').2.count (Finding.rMismatchAvg a b) = 0 := by
    apply List.count_eq_zero.mpr
    intro hmem
    have := rPairRes_warn_shape _ _ a' b' _ hmem
    cases this
    exact hne ⟨rfl, rfl⟩
  have hn0 : (nPairRes ((cellAt st.1 a' b').getD ⟨none, none⟩).n
      ((cellAt st.1 b' a').getD ⟨none, none⟩).n a' b').2.count (Finding.rMismatchAvg a b) = 0 := by
    apply List.count_eq_zero.mpr
    intro hmem
    have := nPairRes_warn_shape _ _ a' b' _ hmem
    cases this
  omega

theorem reconcilePair_effect (st : CellMatrix × List Finding) (a b : VarName)
    (hab : a ≠ b) :
    getCellR (reconcilePair st a b).1 a b =
      (rPairRes (getCellR st.1 a b) (getCellR st.1 b a) a b).1 ∧
    getCellR (reconcilePair st a b).1 b a =
      (rPairRes (getCellR st.1 a b) (getCellR st.1 b a) a b).1 ∧
    ((reconcilePair st a b).2).count (Finding.rMismatchAvg a b) =
      st.2.count (Finding.rMismatchAvg a b) +
        (rPairRes (getCellR st.1 a b) (getCellR st.1 b a) a b).2.count
          (Finding.rMismatchAvg a b) := by
  unfold reconcilePair
  simp only [getD_r_eq_getCellR, getD_n_eq_getCellN]
  refine ⟨?_, ?_, ?_⟩
  · unfold getCellR
    simp [cellAt_updCell, hab]
  · unfold getCellR
    simp [cellAt_updCell, hab]
  · simp only [← List.append_assoc, List.count_append]
    have hn0 : (nPairRes (getCellN st.1 a b) (getCellN st.1 b a) a b).2.count
        (Finding.rMismatchAvg a b) = 0 := by
      apply List.count_eq_zero.mpr
      intro hmem
      have := nPairRes_warn_shape _ _ a b _ hmem
      cases this
    omega

theorem reconcile_fold_preserve (vars : List VarName) (a b : VarName) :
    ∀ (ps : List (Nat × Nat)) (st : CellMatrix × List Finding),
      (∀ p ∈ ps, ¬(vars.getD p.1 "" = a ∧ vars.getD p.2 "" = b) ∧
        ¬(vars.getD p.1 "" = b ∧ vars.getD p.2 "" = a)) →
      getCellR (ps.foldl (fun st p => reconcilePair st (vars.getD p.1 "") (vars.getD p.2 "")) st).1 a b
          = getCellR st.1 a b ∧
      getCellR (ps.foldl (fun st p => reconcilePair st (vars.getD p.1 "") (vars.getD p.2 "")) st).1 b a
          = getCellR st.1 b a ∧
      ((ps.foldl (fun st p => reconcilePair st (vars.getD p.1 "") (vars.getD p.2 "")) st).2).count
          (Finding.rMismatchAvg a b) = st.2.count (Finding.rMismatchAvg a b)
  | [], st, _ => ⟨rfl, rfl, rfl⟩
  | p :: ps, st, h => by
    have hp := h p (by simp)
    have htail := reconcile_fold_preserve vars a b ps
      (reconcilePair st (vars.getD p.1 "") (vars.getD p.2 ""))
      (fun q hq => h q (by simp [hq]))
    simp only [List.foldl_cons]
    refine ⟨?_, ?_, ?_⟩
    · rw [htail.1]
      unfold getCellR
      rw [reconcilePair_cellAt_other st _ _ a b
        (fun hc => hp.1 ⟨hc.1.symm, hc.2.symm⟩) (fun hc => hp.2 ⟨hc.2.symm, hc.1.symm⟩)]
    · rw [htail.2.1]
      unfold getCellR
      rw [reconcilePair_cellAt_other st _ _ b a
        (fun hc => hp.2 ⟨hc.1.symm, hc.2.symm⟩) (fun hc => hp.1 ⟨hc.2.symm, hc.1.symm⟩)]
    · rw [htail.2.2]
      exact reconcilePair_count_other st _ _ a b (fun hc => hp.1 hc)

theorem diagForce_preserve (a b : VarName) (hab : a ≠ b) :
    ∀ (l : List VarName) (m : CellMatrix),
      getCellR (l.foldl (fun M v => updCell M v v diagCell) m) a b = getCellR m a b ∧
      getCellR (l.foldl (fun M v => updCell M v v diagCell) m) b a = getCellR m b a
  | [], _ => ⟨rfl, rfl⟩
  | v :: l, m => by
    simp only [List.foldl_cons]
    have ih := diagForce_preserve a b hab l (updCell m v v diagCell)
    refine ⟨ih.1.trans ?_, ih.2.trans ?_⟩
    · unfold getCellR
      rw [cellAt_updCell, if_neg (fun hc => hab (hc.1.trans hc.2.symm))]
    · unfold getCellR
      rw [cellAt_updCell, if_neg (fun hc => hab (hc.2.trans hc.1.symm))]

theorem cellsPresent_rows {vars : List VarName} {M : CellMatrix}
    (hpres : cellsPresent vars M) : ∀ r ∈ vars, (M r).isSome := by
  intro r hr
  have := hpres r hr r hr
  unfold cellAt at this
  rcases h : M r with _ | _
  · rw [h] at this; simp at this
  · simp

theorem cellsPresent_pairs {vars : List VarName} {M : CellMatrix}
    (hpres : cellsPresent vars M) :
    ∀ p ∈ indexPairs vars.length,
      (cellAt M (vars.getD p.1 "") (vars.getD p.2 "")).isSome := by
  rintro ⟨i, j⟩ hp
  rcases mem_indexPairs.mp hp with ⟨hij, hjn⟩
  have hi : vars.getD i "" ∈ vars := by
    rw [List.getD_eq_getElem vars "" (by omega)]
    exact List.getElem_mem _
  have hj : vars.getD j "" ∈ vars := by
    rw [List.getD_eq_getElem vars "" (by omega)]
    exact List.getElem_mem _
  exact hpres _ hi _ hj

theorem other_pairs_ne {vars : List VarName} {i j : Nat} (hnd : vars.Nodup)
    (hij : i < j) (hjn : j < vars.length) {i' j' : Nat}
    (hp' : (i', j') ∈ indexPairs vars.length) (hne : (i', j') ≠ (i, j)) :
    ¬(vars.getD i' "" = vars.getD i "" ∧ vars.getD j' "" = vars.getD j "") ∧
    ¬(vars.getD i' "" = vars.getD j "" ∧ vars.getD j' "" = vars.getD i "") := by
  rcases mem_indexPairs.mp hp' with ⟨hij', hjn'⟩
  constructor
  · rintro ⟨h1, h2⟩
    exact hne (by
      rw [nodup_getD_inj hnd (by omega) (by omega) h1,
        nodup_getD_inj hnd (by omega) (by omega) h2])
  · rintro ⟨h1, h2⟩
    have e1 : i' = j := nodup_getD_inj hnd (by omega) (by omega) h1
    have e2 : j' = i := nodup_getD_inj hnd (by omega) (by omega) h2
    omega

theorem clampR_of_le {q : ℚ} (h : |q| ≤ 999 / 1000) : clampR (some q) = some q := by
  rw [abs_le] at h
  show (some (if 999 / 1000 < q then 999 / 1000 else
    if q < -(999 / 1000) then -(999 / 1000) else q) : Fl) = some q
  rw [if_neg (not_lt.mpr h.2), if_neg (not_lt.mpr h.1)]

theorem reconcileSymmetry_pair {vars : List VarName} (m : CellMatrix) {i j : Nat}
    {a b : VarName} (hnd : vars.Nodup) (hij : i < j) (hjn : j < vars.length)
    (hiv : vars.getD i "" = a) (hjv : vars.getD j "" = b) :
    getCellR (reconcileSymmetry vars m).1 a b =
      (rPairRes (getCellR m a b) (getCellR m b a) a b).1 ∧
    getCellR (reconcileSymmetry vars m).1 b a =
      (rPairRes (getCellR m a b) (getCellR m b a) a b).1 ∧
    ((reconcileSymmetry vars m).2).count (Finding.rMismatchAvg a b) =
      (rPairRes (getCellR m a b) (getCellR m b a) a b).2.count (Finding.rMismatchAvg a b) := by
  have hab : a ≠ b := by
    intro h
    have := nodup_getD_inj hnd (by omega : i < vars.length) hjn (hiv.trans (h.trans hjv.symm))
    omega
  have hmem : (i, j) ∈ indexPairs vars.length := mem_indexPairs.mpr ⟨hij, hjn⟩
  rcases List.append_of_mem hmem with ⟨pre, post, hdec⟩
  have hnd' := hdec ▸ indexPairs_nodup vars.length
  rw [List.nodup_append] at hnd'
  have hnpre : (i, j) ∉ pre := fun hin => hnd'.2.2 hin (by simp)
  have hnpost : (i, j) ∉ post := (List.nodup_cons.mp hnd'.2.1).1
  have hother : ∀ {ps : List (Nat × Nat)}, (∀ p ∈ ps, p ∈ indexPairs vars.length) →
      (i, j) ∉ ps →
      ∀ p ∈ ps, ¬(vars.getD p.1 "" = a ∧ vars.getD p.2 "" = b) ∧
        ¬(vars.getD p.1 "" = b ∧ vars.getD p.2 "" = a) := by
    intro ps hsub hnin p hp
    have := other_pairs_ne hnd hij hjn (hsub p hp) (fun he => hnin (he ▸ hp))
    rw [hiv, hjv] at this
    exact this
  unfold reconcileSymmetry
  simp only [hdec, List.foldl_append, List.foldl_cons]
  have hpresub : ∀ p ∈ pre, p ∈ indexPairs vars.length := by
    intro p hp; rw [hdec]; simp [hp]
  have hpostsub : ∀ p ∈ post, p ∈ indexPairs vars.length := by
    intro p hp; rw [hdec]; simp [hp]
  have hpre := reconcile_fold_preserve vars a b pre (m, []) (hother hpresub hnpre)
  rw [hiv, hjv]
  set st1 := pre.foldl (fun st p => reconcilePair st (vars.getD p.1 "") (vars.getD p.2 "")) (m, [])
    with hst1
  have heff := reconcilePair_effect st1 a b hab
  have hpost := reconcile_fold_preserve vars a b post (reconcilePair st1 a b)
    (hother hpostsub hnpost)
  have hdiag := diagForce_preserve a b hab vars
    (post.foldl (fun st p => reconcilePair st (vars.getD p.1 "") (vars.getD p.2 "")) (reconcilePair st1 a b)).1
  refine ⟨?_, ?_, ?_⟩
  · rw [hdiag.1, hpost.1, heff.1, hpre.1, hpre.2.1]
  · rw [hdiag.2, hpost.2.1, heff.2.1, hpre.1, hpre.2.1]
  · rw [hpost.2.2, heff.2.2, hpre.1, hpre.2.1, hpre.2.2]
    simp

/-- C1.  The claim says validation reconciles mismatched correlations to
their average and emits exactly one warning (not an error); on `mC1`,
where `r("a","b") = 0.5` and `r("b","a") = 0.3`, `validateCellMatrix`
instead reports the mismatch as an error — the result is `ok = false`
with the symmetry finding in `errors` and an empty warning list — and
returns no reconciled matrix at all. -/
theorem c1_mismatch_is_error_not_warning :
    getCellR mC1 "a" "b" = some (1 / 2) ∧ getCellR mC1 "b" "a" = some (3 / 10) ∧
      validateCellMatrix ["a", "b"] mC1 = some c1res ∧
      c1res.ok = false ∧ c1res.errors = [Finding.asymR "a" "b"] ∧ c1res.warnings = [] := by
  refine ⟨by with_unfolding_all decide, by with_unfolding_all decide, ?_, rfl, rfl, rfl⟩
  with_unfolding_all decide

/-- C1 (amended).  For a pair of distinct variables whose two cells hold
finite correlations differing by more than 1e-6, `validateCellMatrix`
emits exactly one *error* for that mismatched pair and no warning, and
does not modify the matrix; the reconciliation described by the claim is
performed by the copy variant's `parseMatrixText` symmetry pass
(`reconcileSymmetry`), which sets both `M[a][b].r` and `M[b][a].r` to the
average `(q1+q2)/2` (clamped to `±0.999`; the clamp is the identity for
already-parsed values, which lie in `[-0.999, 0.999]`) and emits exactly
one warning for that pair, and which uses the single defined side as-is
with no warning when only one side is finite. -/
theorem c1_amended_reconciliation :
    (∀ (vars : List VarName) (M : CellMatrix) (res : ValidationResult)
        (i j : Nat) (a b : VarName) (q1 q2 : ℚ),
      vars.Nodup → cellsPresent vars M →
      validateCellMatrix vars M = some res →
      i < j → j < vars.length → vars.getD i "" = a → vars.getD j "" = b →
      getCellR M a b = some q1 → getCellR M b a = some q2 → eps6 < |q1 - q2| →
      res.errors.count (Finding.asymR a b) = 1 ∧ Finding.asymR a b ∉ res.warnings) ∧
    (∀ (vars : List VarName) (m : CellMatrix) (i j : Nat) (a b : VarName) (q1 q2 : ℚ),
      vars.Nodup →
      i < j → j < vars.length → vars.getD i "" = a → vars.getD j "" = b →
      getCellR m a b = some q1 → getCellR m b a = some q2 → eps6 < |q1 - q2| →
      |q1| ≤ 999 / 1000 → |q2| ≤ 999 / 1000 →
      getCellR (reconcileSymmetry vars m).1 a b = some ((q1 + q2) / 2) ∧
      getCellR (reconcileSymmetry vars m).1 b a = some ((q1 + q2) / 2) ∧
      ((reconcileSymmetry vars m).2).count (Finding.rMismatchAvg a b) = 1) ∧
    (∀ (vars : List VarName) (m : CellMatrix) (i j : Nat) (a b : VarName) (q1 : ℚ),
      vars.Nodup →
      i < j → j < vars.length → vars.getD i "" = a → vars.getD j "" = b →
      getCellR m a b = some q1 → getCellR m b a = none →
      getCellR (reconcileSymmetry vars m).1 a b = some q1 ∧
      getCellR (reconcileSymmetry vars m).1 b a = some q1 ∧
      ((reconcileSymmetry vars m).2).count (Finding.rMismatchAvg a b) = 0) := by
  refine ⟨?_, ?_, ?_⟩
  · intro vars M res i j a b q1 q2 hnd hpres hres hij hjn hiv hjv h1 h2 hcond
    rw [validateCellMatrix_of_present (cellsPresent_rows hpres) (cellsPresent_pairs hpres)]
      at hres
    rcases Option.some.injEq .. ▸ hres with rfl
    rw [← qabs_eq_abs] at hcond
    refine ⟨count_validateErrors_asymR hnd hij hjn hiv hjv h1 h2 hcond, ?_⟩
    intro hmem
    rcases mem_validateWarnings.mp hmem with ⟨i', j', _, hpf⟩
    rcases pairFindings_snd_shape hpf with hs | hs <;> cases hs
  · intro vars m i j a b q1 q2 hnd hij hjn hiv hjv h1 h2 hcond hb1 hb2
    rw [← qabs_eq_abs] at hcond
    have havg : |(q1 + q2) / 2| ≤ 999 / 1000 := by
      have h3 := abs_add q1 q2
      rw [abs_div]
      have h2a : |(2 : ℚ)| = 2 := by norm_num
      rw [h2a, div_le_iff₀ (by norm_num : (0 : ℚ) < 2)]
      calc |q1 + q2| ≤ |q1| + |q2| := h3
        _ ≤ 999 / 1000 + 999 / 1000 := add_le_add hb1 hb2
        _ = 999 / 1000 * 2 := by ring
    have hmain := reconcileSymmetry_pair m hnd hij hjn hiv hjv
    rw [h1, h2] at hmain
    have hrp : (rPairRes (some q1) (some q2) a b).1 = some ((q1 + q2) / 2) := by
      simp only [rPairRes]
      rw [if_pos hcond]
      exact clampR_of_le havg
    have hrp2 : (rPairRes (some q1) (some q2) a b).2.count (Finding.rMismatchAvg a b) = 1 := by
      simp only [rPairRes]
      rw [if_pos hcond]
      simp
    exact ⟨hmain.1.trans hrp, hmain.2.1.trans hrp, hmain.2.2.trans hrp2⟩
  · intro vars m i j a b q1 hnd hij hjn hiv hjv h1 h2
    have hmain := reconcileSymmetry_pair m hnd hij hjn hiv hjv
    rw [h1, h2] at hmain
    exact ⟨hmain.1, hmain.2.1, hmain.2.2⟩

/-- Witness for C1's amended theorem: the validator branch on `mC1`
(exactly one symmetry error, no warning), the averaging branch of
`reconcileSymmetry` on `mC1` (both sides become `0.4` with one warning),
and the single-sided branch on `mC1s`. -/
theorem c1_amended_reconciliation_witness :
    (c1res.errors.count (Finding.asymR "a" "b") = 1 ∧
      Finding.asymR "a" "b" ∉ c1res.warnings) ∧
    (getCellR (reconcileSymmetry ["a", "b"] mC1).1 "a" "b" = some ((1 / 2 + 3 / 10) / 2) ∧
      getCellR (reconcileSymmetry ["a", "b"] mC1).1 "b" "a" = some ((1 / 2 + 3 / 10) / 2) ∧
      ((reconcileSymmetry ["a", "b"] mC1).2).count (Finding.rMismatchAvg "a" "b") = 1) ∧
    (getCellR (reconcileSymmetry ["a", "b"] mC1s).1 "a" "b" = some (1 / 2) ∧
      getCellR (reconcileSymmetry ["a", "b"] mC1s).1 "b" "a" = some (1 / 2) ∧
      ((reconcileSymmetry ["a", "b"] mC1s).2).count (Finding.rMismatchAvg "a" "b") = 0) := by
  refine ⟨?_, ?_, ?_⟩
  · exact c1_amended_reconciliation.1 ["a", "b"] mC1 c1res 0 1 "a" "b" (1 / 2) (3 / 10)
      (by decide) (by unfold cellsPresent; with_unfolding_all decide)
      (by with_unfolding_all decide) (by decide) (by decide) (by decide) (by decide)
      (by with_unfolding_all decide) (by with_unfolding_all decide)
      (by rw [abs_of_pos] <;> norm_num [eps6])
  · exact c1_amended_reconciliation.2.1 ["a", "b"] mC1 0 1 "a" "b" (1 / 2) (3 / 10)
      (by decide) (by decide) (by decide) (by decide) (by decide)
      (by with_unfolding_all decide) (by with_unfolding_all decide)
      (by rw [abs_of_pos] <;> norm_num [eps6])
      (by rw [abs_of_pos] <;> norm_num) (by rw [abs_of_pos] <;> norm_num)
  · exact c1_amended_reconciliation.2.2 ["a", "b"] mC1s 0 1 "a" "b" (1 / 2)
      (by decide) (by decide) (by decide) (by decide) (by decide)
      (by with_unfolding_all decide) (by with_unfolding_all decide)

theorem filter_mem_length_eq {vars targets : List VarName} (hnd : vars.Nodup) :
    (vars.filter fun v => decide (v ∈ targets)).length =
      (targets.dedup.filter fun v => decide (v ∈ vars)).length := by
  have h1 : (vars.filter fun v => decide (v ∈ targets)).toFinset.card =
      (vars.filter fun v => decide (v ∈ targets)).length :=
    List.toFinset_card_of_nodup (hnd.filter _)
  have h2 : (targets.dedup.filter fun v => decide (v ∈ vars)).toFinset.card =
      (targets.dedup.filter fun v => decide (v ∈ vars)).length :=
    List.toFinset_card_of_nodup (targets.nodup_dedup.filter _)
  rw [← h1, ← h2, List.toFinset_filter, List.toFinset_filter]
  congr 1
  ext x
  simp [List.mem_dedup, and_comm]

/-- C5.  For a duplicate-free variable list of length `p` and any edge
list, `countDF` returns `observedMoments = p(p+1)/2`,
`freeParams = |E| + #{distinct variables that are the target of some
edge}`, `df = max(0, observedMoments − freeParams)` and
`df0 = p(p−1)/2`. -/
theorem c5_countDF_accounting (vars : List VarName) (edges : List Edge)
    (hnd : vars.Nodup) :
    (countDF vars edges).observedMoments = vars.length * (vars.length + 1) / 2 ∧
    (countDF vars edges).freeParams =
      edges.length + ((edges.map Edge.to_).dedup.filter fun v => decide (v ∈ vars)).length ∧
    ((countDF vars edges).df : ℤ) =
      max 0 (((countDF vars edges).observedMoments : ℤ) - (countDF vars edges).freeParams) ∧
    (countDF vars edges).df0 = vars.length * (vars.length - 1) / 2 := by
  refine ⟨rfl, ?_, ?_, rfl⟩
  · show edges.length + (vars.filter fun v => decide (v ∈ edges.map Edge.to_)).length = _
    rw [filter_mem_length_eq hnd]
  · simp only [countDF]
    omega

/-- Witness for C5 on a three-variable model whose edge list has four
edges, one of them targeting a variable outside the list. -/
theorem c5_countDF_accounting_witness :
    (countDF ["a", "b", "c"] c5edges).observedMoments = 3 * (3 + 1) / 2 ∧
    (countDF ["a", "b", "c"] c5edges).freeParams =
      c5edges.length +
        ((c5edges.map Edge.to_).dedup.filter fun v => decide (v ∈ ["a", "b", "c"])).length ∧
    ((countDF ["a", "b", "c"] c5edges).df : ℤ) =
      max 0 (((countDF ["a", "b", "c"] c5edges).observedMoments : ℤ) -
        (countDF ["a", "b", "c"] c5edges).freeParams) ∧
    (countDF ["a", "b", "c"] c5edges).df0 = 3 * (3 - 1) / 2 :=
  c5_countDF_accounting ["a", "b", "c"] c5edges (by decide)

theorem indexPairs_succ (n : Nat) :
    indexPairs (n + 1) =
      ((List.range n).map fun j => ((0 : Nat), j + 1)) ++
        (indexPairs n).map (fun p => (p.1 + 1, p.2 + 1)) := by
  unfold indexPairs
  rw [List.range_succ_eq_map, List.flatMap_cons]
  congr 1
  · rw [List.drop_succ_cons, List.drop_zero, List.map_map]
    rfl
  · rw [List.flatMap_map, List.map_flatMap]
    congr 1
    funext i
    rw [List.drop_succ_cons, ← List.map_drop, List.map_map, List.map_map]
    rfl

theorem map_getD_range (d : VarName) :
    ∀ (l : List VarName), (List.range l.length).map (fun i => l.getD i d) = l
  | [] => rfl
  | x :: xs => by
    rw [List.length_cons, List.range_succ_eq_map, List.map_cons, List.map_map]
    congr 1
    exact map_getD_range d xs

theorem indexPairs_map_getD :
    ∀ (vars : List VarName),
      (indexPairs vars.length).map (fun p => (vars.getD p.1 "", vars.getD p.2 "")) =
        unordPairs vars
  | [] => rfl
  | x :: xs => by
    rw [List.length_cons, indexPairs_succ, List.map_append, List.map_map, List.map_map]
    unfold unordPairs
    congr 1
    · have h := map_getD_range "" xs
      calc (List.range xs.length).map
            ((fun p => ((x :: xs).getD p.1 "", (x :: xs).getD p.2 "")) ∘ fun j => (0, j + 1))
          = (List.range xs.length).map ((fun y => (x, y)) ∘ fun i => xs.getD i "") := rfl
        _ = ((List.range xs.length).map (fun i => xs.getD i "")).map (fun y => (x, y)) := by
            rw [List.map_map]
        _ = xs.map (fun y => (x, y)) := by rw [h]
    · exact indexPairs_map_getD xs

theorem filterMap_indexPairs_eq_spec (vars : List VarName) (M : CellMatrix) :
    (indexPairs vars.length).filterMap
        (fun p => symN M (vars.getD p.1 "") (vars.getD p.2 "")) =
      specCollectedNs vars M := by
  unfold specCollectedNs
  rw [← indexPairs_map_getD vars, List.filterMap_map]
  rfl

theorem foldl_qmin_spec :
    ∀ (rest : List ℚ) (n0 : ℚ),
      (rest.foldl qmin n0 = n0 ∨ rest.foldl qmin n0 ∈ rest) ∧
        rest.foldl qmin n0 ≤ n0 ∧ ∀ x ∈ rest, rest.foldl qmin n0 ≤ x
  | [], n0 => ⟨Or.inl rfl, le_refl n0, by simp⟩
  | y :: ys, n0 => by
    have ih := foldl_qmin_spec ys (qmin n0 y)
    simp only [List.foldl_cons]
    have hmin : qmin n0 y ≤ n0 ∧ qmin n0 y ≤ y := by
      rw [qmin_eq_min]
      exact ⟨min_le_left .., min_le_right ..⟩
    refine ⟨?_, ih.2.1.trans hmin.1, ?_⟩
    · rcases ih.1 with h | h
      · rw [h]
        rw [qmin_eq_min]
        rcases min_choice n0 y with hc | hc <;> rw [hc]
        · exact Or.inl rfl
        · exact Or.inr (by simp)
      · exact Or.inr (by simp [h])
    · intro x hx
      rcases List.mem_cons.mp hx with rfl | hx'
      · exact ih.2.1.trans hmin.2
      · exact ih.2.2 x hx'

theorem foldl_add_inv_sum :
    ∀ (l : List ℚ) (acc : ℚ),
      l.foldl (fun d n => d + 1 / n) acc = acc + (l.map fun n => 1 / n).sum
  | [], acc => by simp
  | y :: ys, acc => by
    simp only [List.foldl_cons, List.map_cons, List.sum_cons]
    rw [foldl_add_inv_sum ys (acc + 1 / y)]
    ring

/-- C6.  `computeTotalN` collects one reconciled `n` per unique unordered
variable pair — `symN` takes the minimum of the two sides when both are
finite, the single finite side otherwise, and skips pairs with neither —
returns NaN (`none`) exactly when no pair yields a valid `n`, returns the
minimum of the collected values under method `min`, and returns
`count / Σ (1/nᵢ)` under method `harmonic`. -/
theorem c6_computeTotalN_spec (vars : List VarName) (M : CellMatrix) :
    (∀ a b n1 n2, getCellN M a b = some n1 → getCellN M b a = some n2 →
      symN M a b = some (min n1 n2)) ∧
    (∀ a b n1, getCellN M a b = some n1 → getCellN M b a = none →
      symN M a b = some n1) ∧
    (∀ a b n2, getCellN M a b = none → getCellN M b a = some n2 →
      symN M a b = some n2) ∧
    (∀ a b, getCellN M a b = none → getCellN M b a = none → symN M a b = none) ∧
    (∀ method, computeTotalN vars M method = none ↔ specCollectedNs vars M = []) ∧
    (∀ v, computeTotalN vars M .min = some v →
      v ∈ specCollectedNs vars M ∧ ∀ x ∈ specCollectedNs vars M, v ≤ x) ∧
    (specCollectedNs vars M ≠ [] →
      computeTotalN vars M .harmonic =
        some (((specCollectedNs vars M).length : ℚ) /
          ((specCollectedNs vars M).map fun n => 1 / n).sum)) := by
  refine ⟨?_, ?_, ?_, ?_, ?_, ?_, ?_⟩
  · intro a b n1 n2 h1 h2
    unfold symN
    rw [h1, h2]
    simp [qmin_eq_min]
  · intro a b n1 h1 h2
    unfold symN
    rw [h1, h2]
  · intro a b n2 h1 h2
    unfold symN
    rw [h1, h2]
  · intro a b h1 h2
    unfold symN
    rw [h1, h2]
  · intro method
    unfold computeTotalN
    rw [filterMap_indexPairs_eq_spec]
    rcases h : specCollectedNs vars M with _ | ⟨n0, rest⟩
    · simp
    · rcases method <;> simp
  · intro v hv
    unfold computeTotalN at hv
    rw [filterMap_indexPairs_eq_spec] at hv
    rcases h : specCollectedNs vars M with _ | ⟨n0, rest⟩
    · rw [h] at hv; cases hv
    · rw [h] at hv
      simp only at hv
      have hfold := foldl_qmin_spec rest n0
      cases hv
      constructor
      · rcases hfold.1 with he | he
        · rw [he]; simp
        · simp [he]
      · intro x hx
        rcases List.mem_cons.mp hx with rfl | hx'
        · exact hfold.2.1
        · exact hfold.2.2 x hx'
  · intro hne
    unfold computeTotalN
    rw [filterMap_indexPairs_eq_spec]
    rcases h : specCollectedNs vars M with _ | ⟨n0, rest⟩
    · exact absurd h hne
    · simp only
      rw [foldl_add_inv_sum]
      push_cast
      simp

/-- Witness for C6 at `mC6` (pairs `(a,b) ↦ 10`, `(a,c) ↦ 20`, pair
`(b,c)` skipped): `symN` reconciles, the minimum is `10`, and the
harmonic total is `2 / (1/10 + 1/20) = 40/3`. -/
theorem c6_computeTotalN_spec_witness :
    symN mC6 "a" "b" = some (min 10 10) ∧
    (10 : ℚ) ∈ specCollectedNs ["a", "b", "c"] mC6 ∧
    (∀ x ∈ specCollectedNs ["a", "b", "c"] mC6, (10 : ℚ) ≤ x) ∧
    computeTotalN ["a", "b", "c"] mC6 .harmonic =
      some (((specCollectedNs ["a", "b", "c"] mC6).length : ℚ) /
        ((specCollectedNs ["a", "b", "c"] mC6).map fun n => 1 / n).sum) := by
  have hmin := (c6_computeTotalN_spec ["a", "b", "c"] mC6).2.2.2.2.2.1 10
    (by with_unfolding_all decide)
  refine ⟨?_, hmin.1, hmin.2, ?_⟩
  · exact (c6_computeTotalN_spec ["a", "b", "c"] mC6).1 "a" "b" 10 10
      (by with_unfolding_all decide) (by with_unfolding_all decide)
  · exact (c6_computeTotalN_spec ["a", "b", "c"] mC6).2.2.2.2.2.2
      (by with_unfolding_all decide)

theorem diagFold_preserve_ne {v : VarName} :
    ∀ (l : List VarName) (m : CellMatrix), v ∉ l →
      cellAt (l.foldl (fun M w => updCell M w w diagCell) m) v v = cellAt m v v
  | [], _, _ => rfl
  | w :: l, m, hv => by
    simp only [List.mem_cons, not_or] at hv
    simp only [List.foldl_cons]
    rw [diagFold_preserve_ne l _ hv.2, cellAt_updCell,
      if_neg (fun hc => hv.1 hc.1)]

theorem diagFold_sets {v : VarName} :
    ∀ (l : List VarName) (m : CellMatrix), v ∈ l →
      cellAt (l.foldl (fun M w => updCell M w w diagCell) m) v v = some diagCell
  | [], _, hv => absurd hv (by simp)
  | w :: l, m, hv => by
    simp only [List.foldl_cons]
    by_cases hvl : v ∈ l
    · exact diagFold_sets l _ hvl
    · rcases List.mem_cons.mp hv with rfl | hv'
      · rw [diagFold_preserve_ne l _ hvl, cellAt_updCell, if_pos ⟨rfl, rfl⟩]
      · exact absurd hv' hvl

theorem innerFold_other {r v w : VarName} (hne : v ≠ r) :
    ∀ (cs : List VarName) (m : CellMatrix),
      cellAt (cs.foldl (fun M c =>
        updCell M r c (if r = c then diagCell else ⟨none, none⟩)) m) v w = cellAt m v w
  | [], _ => rfl
  | c :: cs, m => by
    simp only [List.foldl_cons]
    rw [innerFold_other hne cs _, cellAt_updCell, if_neg (fun hc => hne hc.1)]

theorem innerFold_keep {r w : VarName} :
    ∀ (cs : List VarName) (m : CellMatrix), w ∉ cs →
      cellAt (cs.foldl (fun M c =>
        updCell M r c (if r = c then diagCell else ⟨none, none⟩)) m) r w = cellAt m r w
  | [], _, _ => rfl
  | c :: cs, m, hw => by
    simp only [List.mem_cons, not_or] at hw
    simp only [List.foldl_cons]
    rw [innerFold_keep cs _ hw.2, cellAt_updCell, if_neg (fun hc => hw.1 hc.2)]

theorem innerFold_diag {r : VarName} :
    ∀ (cs : List VarName) (m : CellMatrix), r ∈ cs →
      cellAt (cs.foldl (fun M c =>
        updCell M r c (if r = c then diagCell else ⟨none, none⟩)) m) r r = some diagCell
  | [], _, hr => absurd hr (by simp)
  | c :: cs, m, hr => by
    simp only [List.foldl_cons]
    by_cases hrc : r ∈ cs
    · exact innerFold_diag cs _ hrc
    · rcases List.mem_cons.mp hr with rfl | hr'
      · rw [innerFold_keep cs _ hrc, cellAt_updCell, if_pos ⟨rfl, rfl⟩, if_pos rfl]
      · exact absurd hr' hrc

theorem outerFold_diag {v : VarName} (innerList : List VarName) (hvi : v ∈ innerList) :
    ∀ (rs : List VarName) (m : CellMatrix), v ∈ rs →
      cellAt (rs.foldl (fun M r => innerList.foldl (fun M c =>
        updCell M r c (if r = c then diagCell else ⟨none, none⟩)) M) m) v v = some diagCell
  | [], _, hv => absurd hv (by simp)
  | r :: rs, m, hv => by
    simp only [List.foldl_cons]
    by_cases hvr : v ∈ rs
    · exact outerFold_diag innerList hvi rs _ hvr
    · rcases List.mem_cons.mp hv with rfl | hv'
      · have hpres : ∀ (rs' : List VarName) (m' : CellMatrix), v ∉ rs' →
            cellAt (rs'.foldl (fun M r => innerList.foldl (fun M c =>
              updCell M r c (if r = c then diagCell else ⟨none, none⟩)) M) m') v v =
            cellAt m' v v := by
          intro rs'
          induction rs' with
          | nil => intro m' _; rfl
          | cons r' rs'' ih =>
            intro m' hnv
            simp only [List.mem_cons, not_or] at hnv
            simp only [List.foldl_cons]
            rw [ih _ hnv.2, innerFold_other (fun h => hnv.1 h) innerList m']
        rw [hpres rs _ hvr]
        exact innerFold_diag innerList m hvi
      · exact absurd hv' hvr

/-- C9.  Every matrix constructor and mutator forces the diagonal: the
empty-matrix builder, carry-over on variable change, preset loading and
text parsing all leave `M[v][v] = {r: 1, n: NaN}` for every variable `v`,
and the single-cell editor `setCell` preserves that invariant regardless
of the patch the caller supplies (a diagonal edit is overwritten with the
forced diagonal cell). -/
theorem c9_diagonal_always_forced :
    (∀ (vars : List VarName) (v : VarName), v ∈ vars →
      cellAt (makeEmptyCellMatrix vars) v v = some diagCell) ∧
    (∀ (oldVars : List VarName) (oldM : CellMatrix) (newVars : List VarName)
        (newM : CellMatrix) (v : VarName), v ∈ newVars →
      cellAt (carryOverCellMatrix oldVars oldM newVars newM) v v = some diagCell) ∧
    (∀ (sample : SampleType) (v : VarName), v ∈ BASE_VARS →
      cellAt (buildPresetBaseMatrix sample) v v = some diagCell) ∧
    (∀ (pTok : String → Bool → Cell) (rows : List (List String))
        (vars : List VarName) (M : CellMatrix),
      parseCombinedMatrixText pTok rows = .ok (vars, M) →
      ∀ v ∈ vars, cellAt M v v = some diagCell) ∧
    (∀ (M : CellMatrix) (vars : List VarName) (r c : VarName) (patch : CellPatch),
      (∀ v ∈ vars, cellAt M v v = some diagCell) →
      ∀ v ∈ vars, cellAt (setCell M r c patch) v v = some diagCell) := by
  refine ⟨?_, ?_, ?_, ?_, ?_⟩
  · intro vars v hv
    exact outerFold_diag vars hv vars emptyCellMatrix hv
  · intro oldVars oldM newVars newM v hv
    exact diagFold_sets newVars _ hv
  · intro sample v hv
    exact diagFold_sets BASE_VARS _ hv
  · intro pTok rows vars M h v hv
    simp only [parseCombinedMatrixText] at h
    split_ifs at h
    rcases hf : parseDataRows pTok (rows.getD 0 []) ((rows.getD 0 []).drop 1)
        (rows.enum.drop 1) with e | M0 <;> rw [hf] at h
    · cases h
    · simp only [Except.bind] at h
      split_ifs at h
      rcases Except.ok.injEq .. ▸ h with heq
      rcases Prod.mk.injEq .. ▸ heq with ⟨rfl, rfl⟩
      exact diagFold_sets _ _ hv
  · intro M vars r c patch hdiag v hv
    unfold setCell
    by_cases hrc : r = c
    · subst hrc
      simp only [ne_eq, not_true_eq_false, if_neg, ite_false]
      rw [cellAt_updCell]
      by_cases hvr : v = r
      · rw [if_pos ⟨hvr, hvr⟩]
      · rw [if_neg (fun hc => hvr hc.1), cellAt_updCell, if_neg (fun hc => hvr hc.1)]
        exact hdiag v hv
    · simp only [ne_eq, hrc, not_false_eq_true, if_pos, ite_true]
      rw [cellAt_updCell, if_neg (fun hc => hrc (hc.2.symm.trans hc.1)),
        cellAt_updCell, if_neg (fun hc => hrc (hc.1.symm.trans hc.2))]
      exact hdiag v hv

/-- Witness for C9: the forced diagonal after each operation on concrete
inputs, including a `setCell` that tries to overwrite a diagonal cell
with `r = 0.5`. -/
theorem c9_diagonal_always_forced_witness :
    cellAt (makeEmptyCellMatrix ["a", "b"]) "a" "a" = some diagCell ∧
    cellAt (carryOverCellMatrix ["a"] emptyCellMatrix ["a", "b"]
      (makeEmptyCellMatrix ["a", "b"])) "b" "b" = some diagCell ∧
    cellAt (buildPresetBaseMatrix .All) "loyalty" "loyalty" = some diagCell ∧
    cellAt c9M "a" "a" = some diagCell ∧
    cellAt (setCell (makeEmptyCellMatrix ["a", "b"]) "a" "a"
      ⟨some (some (1 / 2)), none⟩) "a" "a" = some diagCell := by
  refine ⟨?_, ?_, ?_, ?_, ?_⟩
  · exact c9_diagonal_always_forced.1 ["a", "b"] "a" (by decide)
  · exact c9_diagonal_always_forced.2.1 ["a"] emptyCellMatrix ["a", "b"]
      (makeEmptyCellMatrix ["a", "b"]) "b" (by decide)
  · exact c9_diagonal_always_forced.2.2.1 .All "loyalty" (by decide)
  · exact c9_diagonal_always_forced.2.2.2.1 c9tok c9rows ["a", "b"] c9M rfl "a" (by decide)
  · exact c9_diagonal_always_forced.2.2.2.2 (makeEmptyCellMatrix ["a", "b"]) ["a", "b"]
      "a" "a" ⟨some (some (1 / 2)), none⟩
      (fun v hv => c9_diagonal_always_forced.1 ["a", "b"] v hv) "a" (by decide)

theorem estStep_congr {M1 M2 : CellMatrix} {edges : List Edge}
    (h : ∀ a b, ReadCell edges a b → cellAt M1 a b = cellAt M2 a b)
    (acc : EstAcc) (y : VarName) :
    estStep M1 edges acc y = estStep M2 edges acc y := by
  unfold estStep
  rcases hX : (parentsOf y edges).isEmpty with _ | _
  · simp only [hX, Bool.false_eq_true, if_false]
    have hRxx : ((parentsOf y edges).map fun a => (parentsOf y edges).map fun b =>
        getCellR M1 a b) = ((parentsOf y edges).map fun a => (parentsOf y edges).map fun b =>
        getCellR M2 a b) := by
      apply List.map_congr_left
      intro a ha
      apply List.map_congr_left
      intro b hb
      unfold getCellR
      rw [h a b (Or.inl ⟨y, ha, hb⟩)]
    have hrXy : ((parentsOf y edges).map fun a => getCellR M1 a y) =
        ((parentsOf y edges).map fun a => getCellR M2 a y) := by
      apply List.map_congr_left
      intro a ha
      unfold getCellR
      rw [h a y (Or.inr ha)]
    rw [hRxx, hrXy]
  · simp only [hX, if_true]

theorem estFold_congr {M1 M2 : CellMatrix} {edges : List Edge}
    (h : ∀ a b, ReadCell edges a b → cellAt M1 a b = cellAt M2 a b) :
    ∀ (l : List VarName) (acc : EstAcc),
      l.foldlM (estStep M1 edges) acc = l.foldlM (estStep M2 edges) acc
  | [], _ => rfl
  | y :: l, acc => by
    simp only [List.foldlM_cons]
    rw [estStep_congr h acc y]
    rcases estStep M2 edges acc y with e | acc'
    · rfl
    · exact estFold_congr h l acc'

/-- C10.  The estimator's output depends only on the cells `(a, b)` where
`a` and `b` are parents of one and the same endogenous variable, or `a`
is a parent of the endogenous variable `b`: two matrices over the same
variables that agree on all such cells produce identical
`estimatePathsFromCorrelation` results, however much they differ
elsewhere. -/
theorem c10_estimate_noninterference (vars : List VarName) (edges : List Edge)
    (M1 M2 : CellMatrix)
    (h : ∀ a b, ReadCell edges a b → cellAt M1 a b = cellAt M2 a b) :
    estimatePathsFromCorrelation vars M1 edges =
      estimatePathsFromCorrelation vars M2 edges := by
  unfold estimatePathsFromCorrelation
  rw [estFold_congr h vars ⟨[], [], []⟩]

/-- Witness for C10: `mC10a` and `mC10b` differ at the unread `("b","a")`
cell (and only agree on the read set of the single edge `a → b`), yet the
estimator returns identical results. -/
theorem c10_estimate_noninterference_witness :
    cellAt mC10a "b" "a" ≠ cellAt mC10b "b" "a" ∧
    estimatePathsFromCorrelation ["a", "b"] mC10a [⟨"a", "b"⟩] =
      estimatePathsFromCorrelation ["a", "b"] mC10b [⟨"a", "b"⟩] := by
  refine ⟨by with_unfolding_all decide, ?_⟩
  apply c10_estimate_noninterference
  intro a b hrc
  have hpar : ∀ y a', a' ∈ parentsOf y [(⟨"a", "b"⟩ : Edge)] → y = "b" ∧ a' = "a" := by
    intro y a' ha'
    unfold parentsOf at ha'
    by_cases hy : y = "b"
    · subst hy
      simp at ha'
      exact ⟨rfl, ha'⟩
    · rw [List.filter_cons, if_neg] at ha'
      · simp at ha'
      · simpa using fun hc => hy hc.symm
  rcases hrc with ⟨y, ha, hb⟩ | ha
  · rcases hpar y a ha with ⟨rfl, rfl⟩
    rcases hpar _ b hb with ⟨_, rfl⟩
    with_unfolding_all decide
  · rcases hpar b a ha with ⟨rfl, rfl⟩
    with_unfolding_all decide

theorem recLookup_append_ne (l : List (VarName × Fl)) {z y : VarName} (w : Fl)
    (hne : z ≠ y) : recLookup (l ++ [(z, w)]) y = recLookup l y := by
  unfold recLookup
  rw [List.reverse_append]
  simp [List.find?_cons, hne]

theorem recLookup_append_eq (l : List (VarName × Fl)) (y : VarName) (w : Fl) :
    recLookup (l ++ [(y, w)]) y = some w := by
  unfold recLookup
  rw [List.reverse_append]
  simp

theorem estStep_single {M : CellMatrix} {edges : List Edge} {x y : VarName} {rv : ℚ}
    (hpar : parentsOf y edges = [x]) (hdiag : getCellR M x x = some 1)
    (hr : getCellR M x y = some rv) (acc : EstAcc) :
    estStep M edges acc y =
      .ok ⟨acc.coeffs ++ [⟨x, y, some rv⟩], acc.r2 ++ [(y, some (rv * rv))],
        acc.resid ++ [(y, flMax (some eps8) (flSub (some 1) (some (rv * rv))))]⟩ := by
  unfold estStep
  rw [hpar]
  simp only [List.isEmpty_cons, Bool.false_eq_true, if_false, List.map_cons, List.map_nil,
    hdiag, hr]
  have hinv : matInverse [[some 1]] = .ok [[some 1]] := by with_unfolding_all rfl
  rw [hinv]
  simp only [Except.map, matVecMul, vecDot, List.enum, List.enumFrom, List.map_cons,
    List.map_nil, List.foldl_cons, List.foldl_nil, flAdd, flMul, List.getD_cons_zero]
  norm_num

theorem estStep_P_preserved {M : CellMatrix} {edges : List Edge} {x y : VarName} {rv : ℚ}
    (hpar : parentsOf y edges = [x]) (hdiag : getCellR M x x = some 1)
    (hr : getCellR M x y = some rv) {acc acc' : EstAcc} {z : VarName}
    (hstep : estStep M edges acc z = .ok acc')
    (hP : Coef.mk x y (some rv) ∈ acc.coeffs ∧
      recLookup acc.r2 y = some (some (rv * rv))) :
    Coef.mk x y (some rv) ∈ acc'.coeffs ∧
      recLookup acc'.r2 y = some (some (rv * rv)) := by
  by_cases hzy : z = y
  · subst hzy
    rw [estStep_single hpar hdiag hr acc] at hstep
    rcases Except.ok.injEq .. ▸ hstep with rfl
    exact ⟨List.mem_append_left _ hP.1, by rw [recLookup_append_eq]⟩
  · simp only [estStep] at hstep
    rcases hX : (parentsOf z edges).isEmpty with _ | _ <;> rw [hX] at hstep
    · simp only [Bool.false_eq_true, if_false] at hstep
      rcases hi : matInverse ((parentsOf z edges).map fun a =>
          (parentsOf z edges).map fun b => getCellR M a b) with e | inv <;>
        rw [hi] at hstep
      · cases hstep
      · simp only [Except.map] at hstep
        rcases Except.ok.injEq .. ▸ hstep with rfl
        exact ⟨List.mem_append_left _ hP.1,
          by rw [recLookup_append_ne _ _ hzy]; exact hP.2⟩
    · simp only [if_true] at hstep
      rcases Except.ok.injEq .. ▸ hstep with rfl
      exact hP

theorem estFold_P {M : CellMatrix} {edges : List Edge} {x y : VarName} {rv : ℚ}
    (hpar : parentsOf y edges = [x]) (hdiag : getCellR M x x = some 1)
    (hr : getCellR M x y = some rv) :
    ∀ (l : List VarName) (acc res : EstAcc),
      l.foldlM (estStep M edges) acc = .ok res →
      (y ∈ l ∨ (Coef.mk x y (some rv) ∈ acc.coeffs ∧
        recLookup acc.r2 y = some (some (rv * rv)))) →
      Coef.mk x y (some rv) ∈ res.coeffs ∧
        recLookup res.r2 y = some (some (rv * rv))
  | [], acc, res, hfold, hy => by
    rcases hy with hy | hP
    · cases hy
    · rcases Except.ok.injEq .. ▸ hfold with rfl
      exact hP
  | z :: l, acc, res, hfold, hy => by
    rw [List.foldlM_cons] at hfold
    rcases hstep : estStep M edges acc z with e | acc' <;> rw [hstep] at hfold
    · cases hfold
    · rw [show ((Except.ok acc' : Except String EstAcc) >>=
          fun b' => l.foldlM (estStep M edges) b') = l.foldlM (estStep M edges) acc' from rfl]
        at hfold
      rcases hy with hy | hP
      · rcases List.mem_cons.mp hy with rfl | hy'
        · have hP' : Coef.mk x y (some rv) ∈ acc'.coeffs ∧
              recLookup acc'.r2 y = some (some (rv * rv)) := by
            rw [estStep_single hpar hdiag hr acc] at hstep
            rcases Except.ok.injEq .. ▸ hstep with rfl
            exact ⟨List.mem_append_right _ (by simp), by rw [recLookup_append_eq]⟩
          exact estFold_P hpar hdiag hr l acc' res hfold (Or.inr hP')
        · exact estFold_P hpar hdiag hr l acc' res hfold (Or.inl hy')
      · exact estFold_P hpar hdiag hr l acc' res hfold
          (Or.inr (estStep_P_preserved hpar hdiag hr hstep hP))

/-- C3.  If `y` is the target of exactly one edge, with source `x`, and
the diagonal `r(x,x)` is the forced `1`, then a successful
`estimatePathsFromCorrelation` run returns the coefficient
`beta(x → y)` exactly equal to the observed correlation `r(x,y)`, and
`R²(y)` exactly equal to its square. -/
theorem c3_single_parent_identity (vars : List VarName) (M : CellMatrix)
    (edges : List Edge) (x y : VarName) (rv : ℚ) (res : EstAcc)
    (hy : y ∈ vars) (hpar : parentsOf y edges = [x])
    (hdiag : getCellR M x x = some 1) (hr : getCellR M x y = some rv)
    (hok : estimatePathsFromCorrelation vars M edges = .ok res) :
    Coef.mk x y (some rv) ∈ res.coeffs ∧
      recLookup res.r2 y = some (some (rv * rv)) := by
  unfold estimatePathsFromCorrelation at hok
  rcases hfold : vars.foldlM (estStep M edges) ⟨[], [], []⟩ with e | acc <;>
    rw [hfold] at hok
  · cases hok
  · simp only [Except.map] at hok
    rcases Except.ok.injEq .. ▸ hok with rfl
    exact estFold_P hpar hdiag hr vars ⟨[], [], []⟩ acc hfold (Or.inl hy)

/-- Witness for C3 on `mC3` with the single edge `x → y` and
`r(x,y) = 1/2`: the returned beta is exactly `1/2` and `R²(y)` exactly
`1/4`. -/
theorem c3_single_parent_identity_witness :
    Coef.mk "x" "y" (some (1 / 2)) ∈ c3res.coeffs ∧
      recLookup c3res.r2 "y" = some (some (1 / 2 * (1 / 2))) :=
  c3_single_parent_identity ["x", "y"] mC3 [⟨"x", "y"⟩] "x" "y" (1 / 2) c3res
    (by decide) (by with_unfolding_all decide) (by with_unfolding_all decide)
    (by with_unfolding_all decide) (by with_unfolding_all rfl)

theorem map_eq_error_iff {α β : Type} (x : Except String α) (f : α → β) (e : String) :
    x.map f = .error e ↔ x = .error e := by
  rcases x with e' | a <;> simp [Except.map]

theorem gjStep_error_of_small {n : Nat} {st : List (List Fl) × List (List Fl)}
    {c : Nat} (h : gjSmall st.1 c n = true) : gjStep n st c = .error singularMsg := by
  simp [gjStep, h]

theorem gjStep_ok_of_not_small {n : Nat} {st : List (List Fl) × List (List Fl)}
    {c : Nat} (h : gjSmall st.1 c n = false) :
    ∃ st1, gjStep n st c = .ok st1 := by
  rcases hs : gjStep n st c with e | st1
  · exfalso
    simp [gjStep, h] at hs
  · exact ⟨st1, rfl⟩

theorem gjStep_error_msg {n : Nat} {st : List (List Fl) × List (List Fl)}
    {c : Nat} {e : String} (h : gjStep n st c = .error e) : e = singularMsg := by
  rcases hs : gjSmall st.1 c n with _ | _
  · rcases gjStep_ok_of_not_small hs with ⟨st1, hok⟩
    rw [hok] at h
    cases h
  · rw [gjStep_error_of_small hs] at h
    injection h with h'
    exact h'.symm

theorem gjFold_error_msg {n : Nat} :
    ∀ (cols : List Nat) (st : List (List Fl) × List (List Fl)) (e : String),
      cols.foldlM (gjStep n) st = .error e → e = singularMsg
  | [], _, _, h => by cases h
  | c :: cols, st, e, h => by
    rw [List.foldlM_cons] at h
    rcases hstep : gjStep n st c with e' | st' <;> rw [hstep] at h
    · rw [show ((Except.error e' : Except String (List (List Fl) × List (List Fl))) >>=
          fun b => cols.foldlM (gjStep n) b) = .error e' from rfl] at h
      cases h
      exact gjStep_error_msg hstep
    · rw [show ((Except.ok st' : Except String (List (List Fl) × List (List Fl))) >>=
          fun b => cols.foldlM (gjStep n) b) = cols.foldlM (gjStep n) st' from rfl] at h
      exact gjFold_error_msg cols st' e h

theorem matInverse_error_msg {A : List (List Fl)} {e : String}
    (h : matInverse A = .error e) : e = singularMsg := by
  unfold matInverse at h
  rw [map_eq_error_iff] at h
  exact gjFold_error_msg _ _ _ h

theorem estStep_error_msg {M : CellMatrix} {edges : List Edge} {acc : EstAcc}
    {z : VarName} {e : String} (h : estStep M edges acc z = .error e) :
    e = singularMsg := by
  rcases hi : matInverse ((parentsOf z edges).map fun a =>
      (parentsOf z edges).map fun b => getCellR M a b) with e' | inv
  · simp only [estStep, hi, Except.map] at h
    split_ifs at h
    injection h with h'
    subst h'
    exact matInverse_error_msg hi
  · simp only [estStep, hi, Except.map] at h
    split_ifs at h <;> simp_all

theorem gjFold_error_iff {n : Nat} :
    ∀ (cols : List Nat) (st : List (List Fl) × List (List Fl)),
      cols.foldlM (gjStep n) st = .error singularMsg ↔
        ∃ pre c post, cols = pre ++ c :: post ∧
          ∃ st', pre.foldlM (gjStep n) st = .ok st' ∧ gjSmall st'.1 c n = true
  | [], st => by
    constructor
    · intro h
      cases h
    · rintro ⟨pre, c, post, hdec, -⟩
      exact absurd hdec (by simp)
  | c0 :: cols, st => by
    rw [List.foldlM_cons]
    rcases hsmall : gjSmall st.1 c0 n with _ | _
    · rcases gjStep_ok_of_not_small hsmall with ⟨st1, hstep⟩
      rw [hstep, show ((Except.ok st1 : Except String (List (List Fl) × List (List Fl))) >>=
          fun b => cols.foldlM (gjStep n) b) = cols.foldlM (gjStep n) st1 from rfl,
        gjFold_error_iff cols st1]
      constructor
      · rintro ⟨pre, c, post, hdec, st', hok, hsm⟩
        refine ⟨c0 :: pre, c, post, by rw [hdec, List.cons_append], st', ?_, hsm⟩
        rw [List.foldlM_cons, hstep]
        exact hok
      · rintro ⟨pre, c, post, hdec, st', hok, hsm⟩
        rcases pre with _ | ⟨p0, pre'⟩
        · injection hdec with h1 h2
          subst h1
          subst h2
          rw [List.foldlM_nil] at hok
          injection hok with h'
          subst h'
          rw [hsmall] at hsm
          cases hsm
        · injection hdec with h1 h2
          subst h1
          subst h2
          rw [List.foldlM_cons, hstep] at hok
          exact ⟨pre', c, post, rfl, st', hok, hsm⟩
    · rw [gjStep_error_of_small hsmall,
        show ((Except.error singularMsg : Except String (List (List Fl) × List (List Fl))) >>=
          fun b => cols.foldlM (gjStep n) b) = .error singularMsg from rfl]
      constructor
      · intro _
        exact ⟨[], c0, cols, rfl, st, rfl, hsmall⟩
      · intro _
        rfl

theorem range_decomp {n : Nat} {pre : List Nat} {c : Nat} {post : List Nat}
    (h : List.range n = pre ++ c :: post) : pre = List.range c ∧ c < n := by
  have hlen : n = pre.length + (post.length + 1) := by
    have := congrArg List.length h
    simpa using this
  have hplen : pre.length < n := by omega
  have hget : (List.range n).get ⟨pre.length, by simpa using hplen⟩ = c := by
    simp only [List.get_eq_getElem]
    rw [List.getElem_of_eq h]
    rw [List.getElem_append_right (Nat.le_refl pre.length)]
    simp
  have hc : c = pre.length := by
    rw [← hget]
    simp [List.getElem_range]
  constructor
  · have htake := congrArg (List.take pre.length) h
    rw [List.take_left, List.take_range] at htake
    rw [← htake, hc, Nat.min_eq_left hplen.le]
  · omega

theorem range_split {k n : Nat} (h : k < n) :
    ∃ post, List.range n = List.range k ++ k :: post := by
  induction n with
  | zero => omega
  | succ m ih =>
    rcases Nat.lt_or_ge k m with hk | hk
    · rcases ih hk with ⟨post, hpost⟩
      exact ⟨post ++ [m], by rw [List.range_succ, hpost]; simp⟩
    · have : k = m := by omega
      subst this
      exact ⟨[], by rw [List.range_succ]⟩

theorem matInverse_singular_iff (A : List (List Fl)) :
    matInverse A = .error singularMsg ↔
      ∃ k st, k < A.length ∧ gjPartial A k = .ok st ∧
        gjSmall st.1 k A.length = true := by
  unfold matInverse
  rw [map_eq_error_iff, gjFold_error_iff]
  constructor
  · rintro ⟨pre, c, post, hdec, st', hok, hsm⟩
    rcases range_decomp hdec with ⟨hpre, hcn⟩
    refine ⟨c, st', hcn, ?_, hsm⟩
    unfold gjPartial
    rw [← hpre]
    exact hok
  · rintro ⟨k, st, hk, hok, hsm⟩
    rcases range_split hk with ⟨post, hpost⟩
    exact ⟨List.range k, k, post, hpost, st, hok, hsm⟩

theorem estStep_two_parent_singular {M : CellMatrix} {edges : List Edge}
    {y x1 x2 : VarName} (hpar : parentsOf y edges = [x1, x2])
    (h11 : getCellR M x1 x1 = some 1) (h12 : getCellR M x1 x2 = some 1)
    (h21 : getCellR M x2 x1 = some 1) (h22 : getCellR M x2 x2 = some 1)
    (acc : EstAcc) : estStep M edges acc y = .error singularMsg := by
  have hinv : matInverse ([[some 1, some 1], [some 1, some 1]] : List (List Fl)) =
      .error singularMsg := by
    with_unfolding_all rfl
  simp only [estStep]
  rw [hpar]
  simp only [List.map_cons, List.map_nil, h11, h12, h21, h22]
  rw [show ([x1, x2] : List VarName).isEmpty = false from rfl]
  rw [if_neg (by simp)]
  rw [hinv]
  rfl

theorem estFold_error_of_mem {M : CellMatrix} {edges : List Edge} {y : VarName}
    (hy : ∀ acc, estStep M edges acc y = .error singularMsg) :
    ∀ (l : List VarName) (acc : EstAcc), y ∈ l →
      l.foldlM (estStep M edges) acc = .error singularMsg
  | [], _, hmem => absurd hmem (List.not_mem_nil _)
  | z :: l, acc, hmem => by
    rw [List.foldlM_cons]
    rcases hstep : estStep M edges acc z with e | acc'
    · rw [show ((Except.error e : Except String EstAcc) >>=
          fun b => l.foldlM (estStep M edges) b) = .error e from rfl]
      rw [estStep_error_msg hstep]
    · rw [show ((Except.ok acc' : Except String EstAcc) >>=
          fun b => l.foldlM (estStep M edges) b) = l.foldlM (estStep M edges) acc' from rfl]
      rcases List.mem_cons.mp hmem with rfl | hmem'
      · rw [hy acc] at hstep
        cases hstep
      · exact estFold_error_of_mem hy l acc' hmem'

/-- C8.  Counterexample: a parent set of three, two of whose members are
perfectly correlated (`r(x1,x2) = r(x2,x1) = 1`, distinct variables), on
which `estimatePathsFromCorrelation` nevertheless succeeds and returns
only finite coefficients — the partial-pivot elimination never meets a
pivot below `1e-12` because the inconsistent third column keeps the
`Rxx` matrix nonsingular, so the claimed guarantee fails for parent sets
larger than two. -/
theorem c8_pairwise_one_not_singular :
    parentsOf "y" c8edges = ["x1", "x2", "x3"] ∧
    getCellR mC8 "x1" "x2" = some 1 ∧ getCellR mC8 "x2" "x1" = some 1 ∧
    ("x1" : VarName) ≠ "x2" ∧
    (estimatePathsFromCorrelation ["x1", "x2", "x3", "y"] mC8 c8edges).isOk = true ∧
    (estimatePathsFromCorrelation ["x1", "x2", "x3", "y"] mC8 c8edges).toOption.map
      (fun r => r.coeffs.all fun c => c.beta.isSome) = some true := by
  refine ⟨by with_unfolding_all rfl, by with_unfolding_all rfl,
    by with_unfolding_all rfl, by decide, by with_unfolding_all decide,
    by with_unfolding_all decide⟩

/-- C8.  Amended: (a) when the parent set of an endogenous variable
listed in `vars` is exactly a pair `[x1, x2]` whose four mutual
correlations are all `1` (covering both a duplicated parent and two
distinct perfectly correlated parents), `estimatePathsFromCorrelation`
fails with precisely the singular-matrix error; (b) the kernel inverse
fails with the singular-matrix error exactly when, in some column `k`,
the best pivot of the partially eliminated matrix has magnitude below
`1e-12`. -/
theorem c8_amended_singularity :
    (∀ (vars : List VarName) (M : CellMatrix) (edges : List Edge)
        (y x1 x2 : VarName), y ∈ vars → parentsOf y edges = [x1, x2] →
      getCellR M x1 x1 = some 1 → getCellR M x1 x2 = some 1 →
      getCellR M x2 x1 = some 1 → getCellR M x2 x2 = some 1 →
      estimatePathsFromCorrelation vars M edges = .error singularMsg) ∧
    (∀ A : List (List Fl), matInverse A = .error singularMsg ↔
      ∃ k st, k < A.length ∧ gjPartial A k = .ok st ∧
        gjSmall st.1 k A.length = true) := by
  constructor
  · intro vars M edges y x1 x2 hmem hpar h11 h12 h21 h22
    unfold estimatePathsFromCorrelation
    rw [estFold_error_of_mem
      (fun acc => estStep_two_parent_singular hpar h11 h12 h21 h22 acc) vars _ hmem]
    rfl
  · exact matInverse_singular_iff

/-- Witness for the amended C8 on the two-parent configuration `mC8w`
(`r(x1,x2) = 1` both ways, forced unit diagonal): estimation fails with
the singular-matrix error. -/
theorem c8_amended_singularity_witness :
    estimatePathsFromCorrelation ["x1", "x2", "y"] mC8w c8wedges =
      .error singularMsg :=
  c8_amended_singularity.1 ["x1", "x2", "y"] mC8w c8wedges "y" "x1" "x2"
    (by decide) (by with_unfolding_all rfl) (by with_unfolding_all rfl)
    (by with_unfolding_all rfl) (by with_unfolding_all rfl)
    (by with_unfolding_all rfl)

theorem runPipeline_ok_spec {sqrtf logf : ℚ → ℚ} {vars : List VarName} {M : CellMatrix}
    {edges : List Edge} {nMethod : NMethod} {N : Fl} {res : EstResult}
    {extraW : List Finding}
    (hp : runPipeline sqrtf logf vars M edges nMethod N = .ok (res, extraW)) :
    ((res.fit.chi2.isSome ∧ res.fit.rmsea.isSome ∧ res.fit.cfi.isSome ∧
        res.fit.tli.isSome) ↔ 0 < res.fit.df) ∧
    (res.fit.df = 0 → res.fit.chi2 = none ∧ res.fit.rmsea = none ∧
      res.fit.cfi = none ∧ res.fit.tli = none ∧ extraW = [Finding.dfZero]) ∧
    (0 < res.fit.df → extraW = []) ∧
    res.fit.df = (countDF vars edges).df ∧
    res.fit.observedMoments = (countDF vars edges).observedMoments ∧
    res.fit.freeParams = (countDF vars edges).freeParams ∧
    ∃ est Sigma, estimatePathsFromCorrelation vars M edges = .ok est ∧
      impliedSigmaRecursive vars (buildRMatrix vars M) edges est.coeffs est.resid
        = .ok Sigma ∧
      res.fit.SRMR = srmrOffDiag sqrtf (buildRMatrix vars M) Sigma := by
  simp only [runPipeline] at hp
  rcases hest : estimatePathsFromCorrelation vars M edges with e | est <;>
    rw [hest] at hp
  · simp [Except.bind] at hp
  · simp only [Except.bind] at hp
    rcases hsig : impliedSigmaRecursive vars (buildRMatrix vars M) edges est.coeffs
        est.resid with e | Sigma <;> rw [hsig] at hp
    · simp [Except.bind] at hp
    · simp only [Except.bind] at hp
      by_cases hdf : 0 < (countDF vars edges).df
      · rw [if_pos hdf] at hp
        rcases hfit : fitML logf (buildRMatrix vars M) Sigma N with e | c <;>
          rw [hfit] at hp
        · simp [Except.map] at hp
        · simp only [Except.map] at hp
          injection hp with hp
          rcases Prod.mk.injEq .. ▸ hp with ⟨hres', hw⟩
          subst hres'
          subst hw
          refine ⟨by simp [hdf], ?_, fun _ => rfl, rfl, rfl, rfl,
            est, Sigma, rfl, hsig, rfl⟩
          intro h0
          have h0' : (countDF vars edges).df = 0 := h0
          omega
      · rw [if_neg hdf] at hp
        injection hp with hp
        rcases Prod.mk.injEq .. ▸ hp with ⟨hres', hw⟩
        subst hres'
        subst hw
        refine ⟨by simp [hdf], fun _ => ⟨rfl, rfl, rfl, rfl, rfl⟩, ?_,
          rfl, rfl, rfl, est, Sigma, rfl, hsig, rfl⟩
        intro h
        have h' : 0 < (countDF vars edges).df := h
        exact absurd h' hdf

theorem storeOutcome_lastEst_some {v : ValidationResult} {errors : List Finding}
    {rp : Except String (EstResult × List Finding)} {res : EstResult}
    (h : (storeOutcome v errors rp).lastEst = some res) :
    ∃ extraW, rp = .ok (res, extraW) ∧
      storeOutcome v errors rp = ⟨[], v.warnings ++ extraW, some res⟩ := by
  unfold storeOutcome at h
  rcases hE : errors.isEmpty with _ | _ <;> rw [hE] at h
  · rw [if_neg (by simp)] at h
    have hnone : (none : Option EstResult) = some res := h
    cases hnone
  · rw [if_pos rfl] at h
    rcases rp with msg | ⟨res', extraW⟩
    · have hnone : (none : Option EstResult) = some res := h
      cases hnone
    · have hsome : some res' = some res := h
      injection hsome with hsome
      subst hsome
      exact ⟨extraW, rfl, by unfold storeOutcome; rw [hE, if_pos rfl]⟩

/-- C4.  In every stored estimation outcome, the χ²-derived fields
(`chi2`, `rmsea`, `cfi`, `tli`) of the returned fit record are all
present exactly when `df > 0`; when `df = 0` they are all absent and the
df-zero warning is raised; and in both cases `df`, `observedMoments` and
`freeParams` come from `countDF` while `SRMR` is computed from the
implied covariance matrix of the successful estimation. -/
theorem c4_chi2_fields_iff_df_pos (sqrtf logf : ℚ → ℚ) (vars : List VarName)
    (M : CellMatrix) (edges : List Edge) (nMethod : NMethod) (out : RunOutcome)
    (res : EstResult)
    (hout : runEstimationAndStore sqrtf logf vars M edges nMethod = some out)
    (hres : out.lastEst = some res) :
    ((res.fit.chi2.isSome ∧ res.fit.rmsea.isSome ∧ res.fit.cfi.isSome ∧
        res.fit.tli.isSome) ↔ 0 < res.fit.df) ∧
    (res.fit.df = 0 → res.fit.chi2 = none ∧ res.fit.rmsea = none ∧
      res.fit.cfi = none ∧ res.fit.tli = none ∧ Finding.dfZero ∈ out.warnings) ∧
    res.fit.df = (countDF vars edges).df ∧
    res.fit.observedMoments = (countDF vars edges).observedMoments ∧
    res.fit.freeParams = (countDF vars edges).freeParams ∧
    ∃ est Sigma, estimatePathsFromCorrelation vars M edges = .ok est ∧
      impliedSigmaRecursive vars (buildRMatrix vars M) edges est.coeffs est.resid
        = .ok Sigma ∧
      res.fit.SRMR = srmrOffDiag sqrtf (buildRMatrix vars M) Sigma := by
  unfold runEstimationAndStore at hout
  rcases hv : validateCellMatrix vars M with _ | v <;> rw [hv] at hout
  · have hnone : (none : Option RunOutcome) = some out := hout
    cases hnone
  · simp only [Option.map] at hout
    injection hout with hout
    subst hout
    rcases storeOutcome_lastEst_some hres with ⟨extraW, hrp, hstore⟩
    rcases runPipeline_ok_spec hrp with
      ⟨hiff, hzero, hpos, hdf, hom, hfp, est, Sigma, hest2, hsig2, hsrmr⟩
    refine ⟨hiff, ?_, hdf, hom, hfp, est, Sigma, hest2, hsig2, hsrmr⟩
    intro h0
    rcases hzero h0 with ⟨hc, hr, hcf, ht, hw⟩
    refine ⟨hc, hr, hcf, ht, ?_⟩
    rw [hstore]
    rw [hw]
    simp

/-- Witness for C4 on the two-variable model `mC3` with the single edge
`x → y` (`df = 1 > 0`): all four χ²-derived fields are present. -/
theorem c4_chi2_fields_iff_df_pos_witness :
    ((c4res.fit.chi2.isSome ∧ c4res.fit.rmsea.isSome ∧ c4res.fit.cfi.isSome ∧
        c4res.fit.tli.isSome) ↔ 0 < c4res.fit.df) ∧
    (c4res.fit.df = 0 → c4res.fit.chi2 = none ∧ c4res.fit.rmsea = none ∧
      c4res.fit.cfi = none ∧ c4res.fit.tli = none ∧
      Finding.dfZero ∈ c4out.warnings) ∧
    c4res.fit.df = (countDF ["x", "y"] [⟨"x", "y"⟩]).df ∧
    c4res.fit.observedMoments = (countDF ["x", "y"] [⟨"x", "y"⟩]).observedMoments ∧
    c4res.fit.freeParams = (countDF ["x", "y"] [⟨"x", "y"⟩]).freeParams ∧
    ∃ est Sigma, estimatePathsFromCorrelation ["x", "y"] mC3 [⟨"x", "y"⟩] = .ok est ∧
      impliedSigmaRecursive ["x", "y"] (buildRMatrix ["x", "y"] mC3) [⟨"x", "y"⟩]
        est.coeffs est.resid = .ok Sigma ∧
      c4res.fit.SRMR = srmrOffDiag (fun _ => 0) (buildRMatrix ["x", "y"] mC3) Sigma :=
  c4_chi2_fields_iff_df_pos (fun _ => 0) (fun _ => 0) ["x", "y"] mC3 [⟨"x", "y"⟩]
    .harmonic c4out c4res (by with_unfolding_all decide) (by with_unfolding_all rfl)

end PathModel
